import Mathlib

/-!
# Verification of the ANGLE Vulkan default uniform block engine (ProgramVk.cpp)

A shallow embedding of the default-uniform-block layout and access engine of
`src/libANGLE/renderer/vulkan/ProgramVk.cpp`:

* byte buffers are `List Nat` together with an allocated size
  (`angle::MemoryBuffer`); `memcpy` becomes `writeBytes`/`readBytes`;
* `sh::BlockMemberInfo` becomes `BlockMemberInfo` with the `-1` sentinels;
* the stage loop of `ProgramVk::setUniformImpl` becomes an explicit fold over
  the linked shader stages; `ASSERT` failures are modelled as `none`/`false`
  results (ANGLE's `ASSERT` aborts fatally in debug builds);
* the 4-byte scalar component types (`GLfloat`/`GLint`/`GLuint`) are modelled
  by their byte representation; where the code inspects typed components
  (the boolean-coercion path compares `source[c]` with zero) the source is a
  list of `Int` components serialized little-endian by `encodeGLint`.
-/

set_option maxHeartbeats 1600000

namespace ProgramVk

/-! ## Byte-level memory primitives (model of `memcpy` on `uint8_t*`) -/

/-- Overwrite the bytes of `buf` starting at `off` with the bytes of `src`
(model of `memcpy(buf + off, src, src.length)`).  Writing past the end of
`buf` is truncated; all code paths below either check bounds first (the
`ASSERT`s in the source) or are exercised with large enough backing lists. -/
def writeBytes : List Nat → Nat → List Nat → List Nat
  | [], _, _ => []
  | buf, _, [] => buf
  | _b :: bs, 0, s :: ss => s :: writeBytes bs 0 ss
  | b :: bs, n + 1, src => b :: writeBytes bs n src

/-- Read `len` bytes of `buf` starting at `off`
(model of `memcpy(dst, buf + off, len)` on the source side). -/
def readBytes (buf : List Nat) (off len : Nat) : List Nat :=
  (buf.drop off).take len

/-! ## Data model -/

/-- Model of `angle::MemoryBuffer`: a backing byte list together with the
allocated `size()`.  Keeping `data` possibly longer than `size` lets the
development observe writes past the allocated size (heap corruption in the
C++ program would land in the bytes at indices `≥ size`). -/
structure MemoryBuffer where
  data : List Nat
  size : Nat
deriving DecidableEq, Repr

/-- Model of `sh::BlockMemberInfo` (a LayoutRecord): default-constructed
fields are the `-1` sentinels, meaning "variable unused in this block". -/
structure BlockMemberInfo where
  offset : Int
  arrayStride : Int
  matrixStride : Int
  isRowMajor : Bool
deriving DecidableEq, Repr

instance : Inhabited BlockMemberInfo := ⟨⟨-1, -1, -1, false⟩⟩

/-- `gl::ShaderType`, in its fixed declaration order (the order used by
`getFirstShaderTypeWhereActive`). -/
inductive ShaderType
  | Vertex
  | TessControl
  | TessEvaluation
  | Geometry
  | Fragment
  | Compute
deriving DecidableEq, Repr

/-- All shader types in declaration order. -/
def allShaderTypes : List ShaderType :=
  [ShaderType.Vertex, ShaderType.TessControl, ShaderType.TessEvaluation,
   ShaderType.Geometry, ShaderType.Fragment, ShaderType.Compute]

/-- Component (scalar) category of a GL type: `GL_FLOAT`, `GL_INT`,
`GL_UNSIGNED_INT` or `GL_BOOL`. -/
inductive CompType
  | tFloat
  | tInt
  | tUInt
  | tBool
deriving DecidableEq, Repr

/-- A GL uniform type (`GLenum` plus the `gl::UniformTypeInfo` classification
used by ProgramVk): component category, component count, matrix flag, and the
opaque classifications `isSampler`/`isImage`.  All scalar components occupy
4 bytes. -/
structure GLType where
  comp : CompType
  count : Nat
  matrix : Bool
  sampler : Bool
  image : Bool
deriving DecidableEq, Repr

/-- `gl::VariableBoolVectorType`: the boolean vector type of the same
component count as a (plain float/int/uint) vector type. -/
def VariableBoolVectorType (t : GLType) : GLType :=
  ⟨CompType.tBool, t.count, false, false, false⟩

/-- The slice of `gl::LinkedUniform` consulted by ProgramVk's uniform paths. -/
structure LinkedUniform where
  type : GLType
  name : List Char
  isArray : Bool
  inDefaultBlock : Bool
  isFragmentInOut : Bool
  arraySizeProduct : Nat
  activeStages : ShaderType → Bool

instance : Inhabited LinkedUniform :=
  ⟨⟨⟨CompType.tFloat, 1, false, false, false⟩, [], false, true, false, 1, fun _ => false⟩⟩

/-- `gl::LinkedUniform::getFirstShaderTypeWhereActive`: the first stage (in
declaration order) in which the uniform is active, if any. -/
def getFirstShaderTypeWhereActive (u : LinkedUniform) : Option ShaderType :=
  allShaderTypes.find? (fun s => u.activeStages s)

/-- The slice of `gl::VariableLocation` consulted here. -/
structure VariableLocation where
  index : Nat
  arrayIndex : Nat
  used : Bool
  ignored : Bool
deriving DecidableEq, Repr

instance : Inhabited VariableLocation := ⟨⟨0, 0, false, false⟩⟩

/-- `rx::DefaultUniformBlock`: the per-stage layout table and block storage. -/
structure DefaultUniformBlock where
  uniformLayout : List BlockMemberInfo
  uniformData : MemoryBuffer
deriving DecidableEq, Repr

/-- The program state consulted and mutated by the uniform read/write engine:
`mState.getUniformLocations()`, `mState.getUniforms()`, the linked shader
stages, the per-stage `mDefaultUniformBlocks` and the per-stage dirty bits
`mDefaultUniformBlocksDirty`. -/
structure ProgState where
  uniformLocations : List VariableLocation
  uniforms : List LinkedUniform
  linkedStages : List ShaderType
  blocks : ShaderType → DefaultUniformBlock
  dirty : ShaderType → Bool

/-- `mDefaultUniformBlocksDirty.reset(stage)` as exercised by the external
GPU-upload consumer (the Dirty Tracker contract's `clearDirty`). -/
def clearDirty (stage : ShaderType) (st : ProgState) : ProgState :=
  { st with dirty := Function.update st.dirty stage false }

/-! ## GLint byte serialization (4-byte little-endian two's complement) -/

/-- Little-endian 4-byte representation of a `GLint`/`GLuint` value. -/
def encodeGLint (n : Int) : List Nat :=
  let m := (n % (2 ^ 32 : Int)).toNat
  [m % 256, m / 256 % 256, m / 256 ^ 2 % 256, m / 256 ^ 3 % 256]

/-- The raw bytes of a `GLint`/`GLuint`/`GLfloat` source array `v` as passed
to `memcpy` (each 4-byte component in little-endian order). -/
def glintBytes (v : List Int) : List Nat :=
  (v.map encodeGLint).flatten

/-- Decode a 4-byte little-endian group back to the unsigned value (used to
state read-back results for boolean uniforms, which store `GL_TRUE = 1` /
`GL_FALSE = 0`). -/
def decodeGLuint : List Nat → Nat
  | [b0, b1, b2, b3] => b0 + 256 * (b1 + 256 * (b2 + 256 * b3))
  | _ => 0

/-! ## `UpdateDefaultUniformBlock` / `ReadFromDefaultUniformBlock` -/

/-- The per-element loop of `UpdateDefaultUniformBlock`'s strided branch:
`for (writeIndex = arrayIndex, readIndex = 0; writeIndex < arrayIndex + count; ...)`.
Each iteration asserts `writePtr + elementSize <= data + size` before the
`memcpy`; a failed `ASSERT` aborts, returning `false` with the buffer as
written so far. -/
def updateLoop (base stride elementSize : Nat) (v : List Nat) :
    Nat → Nat → Nat → MemoryBuffer → Bool × MemoryBuffer
  | _writeIndex, _readIndex, 0, buf => (true, buf)
  | writeIndex, readIndex, n + 1, buf =>
      let writePtr := base + writeIndex * stride
      if writePtr + elementSize ≤ buf.size then
        updateLoop base stride elementSize v (writeIndex + 1) (readIndex + 1) n
          ⟨writeBytes buf.data writePtr (readBytes v (readIndex * elementSize) elementSize),
            buf.size⟩
      else
        (false, buf)

/-- `UpdateDefaultUniformBlock<T>` for a 4-byte component type `T`:
`elementSize = sizeof(T) * componentCount`; a contiguous `memcpy` when
`arrayStride` is `0` or equals the tight element size, otherwise the strided
per-element loop.  The `Bool` result records whether the bounds `ASSERT`s
held (`false` models the fatal assertion failure; the buffer component is
the storage at the point the operation stopped). -/
def UpdateDefaultUniformBlock (count arrayIndex componentCount : Nat) (v : List Nat)
    (layoutInfo : BlockMemberInfo) (uniformData : MemoryBuffer) : Bool × MemoryBuffer :=
  let elementSize := 4 * componentCount
  let dst := layoutInfo.offset.toNat
  if layoutInfo.arrayStride = 0 ∨ layoutInfo.arrayStride = (elementSize : Int) then
    let arrayOffset := arrayIndex * layoutInfo.arrayStride.toNat
    let writePtr := dst + arrayOffset
    if writePtr + elementSize * count ≤ uniformData.size then
      (true, ⟨writeBytes uniformData.data writePtr (readBytes v 0 (elementSize * count)),
        uniformData.size⟩)
    else
      (false, uniformData)
  else
    updateLoop dst layoutInfo.arrayStride.toNat elementSize v arrayIndex 0 count uniformData

/-- First branch of `ReadFromDefaultUniformBlock` (`arrayStride == 0 ||
arrayStride == elementSize`): copy `elementSize` bytes from
`source + arrayIndex * arrayStride` into the destination. -/
def readBlockContiguous (componentCount arrayIndex : Nat) (dst : List Nat)
    (layoutInfo : BlockMemberInfo) (uniformData : MemoryBuffer) : List Nat :=
  let elementSize := 4 * componentCount
  let source := layoutInfo.offset.toNat
  let readPtr := source + arrayIndex * layoutInfo.arrayStride.toNat
  writeBytes dst 0 (readBytes uniformData.data readPtr elementSize)

/-- Second branch of `ReadFromDefaultUniformBlock` (the comment in the source
says it respects the stride between elements; it computes
`arrayOffset = arrayIndex * arrayStride` and copies a single element). -/
def readBlockStrided (componentCount arrayIndex : Nat) (dst : List Nat)
    (layoutInfo : BlockMemberInfo) (uniformData : MemoryBuffer) : List Nat :=
  let elementSize := 4 * componentCount
  let source := layoutInfo.offset.toNat
  let arrayOffset := arrayIndex * layoutInfo.arrayStride.toNat
  let readPtr := source + arrayOffset
  writeBytes dst 0 (readBytes uniformData.data readPtr elementSize)

/-- `ReadFromDefaultUniformBlock<T>` for a 4-byte component type `T`.
`ASSERT(layoutInfo.offset != -1)` is modelled by returning `none`. -/
def ReadFromDefaultUniformBlock (componentCount arrayIndex : Nat) (dst : List Nat)
    (layoutInfo : BlockMemberInfo) (uniformData : MemoryBuffer) : Option (List Nat) :=
  if layoutInfo.offset = -1 then
    none
  else
    let elementSize := 4 * componentCount
    if layoutInfo.arrayStride = 0 ∨ layoutInfo.arrayStride = (elementSize : Int) then
      some (readBlockContiguous componentCount arrayIndex dst layoutInfo uniformData)
    else
      some (readBlockStrided componentCount arrayIndex dst layoutInfo uniformData)

/-! ## `ProgramVk::setUniformImpl` / `ProgramVk::getUniformImpl` -/

/-- The boolean-coercion loop of `setUniformImpl`'s mismatched-type branch:
for each element `i < count`, each component `c` is stored as the `GLint`
`GL_FALSE = 0` when `source[c] == 0` and `GL_TRUE = 1` otherwise, at byte
offset `i * arrayStride + initialArrayOffset + 4 * c`.  Note: this loop
performs no bounds `ASSERT`. -/
def boolCoerceLoop (initialArrayOffset stride componentCount : Nat) (v : List Int) :
    Nat → Nat → List Nat → List Nat
  | _i, 0, data => data
  | i, n + 1, data =>
      let elementOffset := i * stride + initialArrayOffset
      let coerced := (((v.drop (i * componentCount)).take componentCount).map
        (fun x => encodeGLint (if x = 0 then 0 else 1))).flatten
      boolCoerceLoop initialArrayOffset stride componentCount v (i + 1) n
        (writeBytes data elementOffset coerced)

/-- The shared shape of the `for (shaderType : linkedShaderStages)` loops in
`setUniformImpl` / `setUniformMatrixfv`: each stage's action consumes that
stage's `DefaultUniformBlock` and yields the updated block plus whether the
stage was touched (touched stages get their dirty bit set); `none` models a
fatal `ASSERT` inside the loop body. -/
def forStages (act : DefaultUniformBlock → Option (DefaultUniformBlock × Bool)) :
    List ShaderType → ProgState → Option ProgState
  | [], st => some st
  | stage :: rest, st =>
      match act (st.blocks stage) with
      | none => none
      | some (block, touched) =>
          forStages act rest
            { st with
              blocks := Function.update st.blocks stage block,
              dirty := if touched then Function.update st.dirty stage true else st.dirty }

/-- Per-stage body of `setUniformImpl`'s matching-type branch: skip the stage
when `layoutInfo.offset == -1`, otherwise run `UpdateDefaultUniformBlock`
(whose bounds `ASSERT` failing aborts) and mark the stage dirty. -/
def setUniformMatchingAct (location count arrayIndex componentCount : Nat)
    (vBytes : List Nat) (block : DefaultUniformBlock) :
    Option (DefaultUniformBlock × Bool) :=
  let layoutInfo := block.uniformLayout.getD location default
  if layoutInfo.offset = -1 then
    some (block, false)
  else
    match UpdateDefaultUniformBlock count arrayIndex componentCount vBytes layoutInfo
        block.uniformData with
    | (true, buf) => some ({ block with uniformData := buf }, true)
    | (false, _) => none

/-- Per-stage body of `setUniformImpl`'s mismatched-type branch: skip the
stage when `layoutInfo.offset == -1`; `ASSERT` that the declared type is the
boolean vector type of the entry point; then run the coercion loop and mark
the stage dirty. -/
def setUniformBoolAct (location count arrayIndex componentCount : Nat)
    (uniformType entryPointType : GLType) (v : List Int) (block : DefaultUniformBlock) :
    Option (DefaultUniformBlock × Bool) :=
  let layoutInfo := block.uniformLayout.getD location default
  if layoutInfo.offset = -1 then
    some (block, false)
  else if uniformType = VariableBoolVectorType entryPointType then
    let initialArrayOffset :=
      arrayIndex * layoutInfo.arrayStride.toNat + layoutInfo.offset.toNat
    some ({ block with uniformData :=
      ⟨boolCoerceLoop initialArrayOffset layoutInfo.arrayStride.toNat componentCount v 0
          count block.uniformData.data,
        block.uniformData.size⟩ }, true)
  else
    none

/-- `ProgramVk::setUniformImpl<T>` for a 4-byte component type `T` whose
source components are the `GLint`s `v` (their raw bytes are `glintBytes v`).
`ASSERT(!linkedUniform.isSampler())` is modelled by `none`. -/
def setUniformImpl (location count : Nat) (v : List Int) (entryPointType : GLType)
    (st : ProgState) : Option ProgState :=
  let locationInfo := st.uniformLocations.getD location default
  let linkedUniform := st.uniforms.getD locationInfo.index default
  if linkedUniform.type.sampler then
    none
  else if linkedUniform.type = entryPointType then
    forStages
      (setUniformMatchingAct location count locationInfo.arrayIndex
        linkedUniform.type.count (glintBytes v))
      st.linkedStages st
  else
    forStages
      (setUniformBoolAct location count locationInfo.arrayIndex linkedUniform.type.count
        linkedUniform.type entryPointType v)
      st.linkedStages st

/-- Modelled from the spec: `GetMatrixUniform` (renderer_utils, not under
src/) is the dedicated un-pack routine restoring the API-visible element
order of a matrix uniform; for this backend the matching-type write stores an
element's `cols·rows` components in API order, so the un-pack is the identity
copy of the element's `4 * componentCount` bytes at `ptrToElement`. -/
def GetMatrixUniform (t : GLType) (dst : List Nat) (ptrToElement : Nat)
    (buf : MemoryBuffer) : List Nat :=
  writeBytes dst 0 (readBytes buf.data ptrToElement (4 * t.count))

/-- `ProgramVk::getUniformImpl<T>`: reads one element from the first stage in
which the uniform is active.  The `ASSERT`s (not sampler/image, a valid first
active stage, component-type agreement) are modelled by `none`. -/
def getUniformImpl (location : Nat) (dst : List Nat) (entryPointType : CompType)
    (st : ProgState) : Option (List Nat) :=
  let locationInfo := st.uniformLocations.getD location default
  let linkedUniform := st.uniforms.getD locationInfo.index default
  if linkedUniform.type.sampler ∨ linkedUniform.type.image then
    none
  else
    match getFirstShaderTypeWhereActive linkedUniform with
    | none => none
    | some shaderType =>
      let uniformBlock := st.blocks shaderType
      let layoutInfo := uniformBlock.uniformLayout.getD location default
      if linkedUniform.type.comp = entryPointType ∨
          linkedUniform.type.comp = CompType.tBool then
        if linkedUniform.type.matrix then
          let ptrToElement := layoutInfo.offset.toNat +
            locationInfo.arrayIndex * layoutInfo.arrayStride.toNat
          some (GetMatrixUniform linkedUniform.type dst ptrToElement
            uniformBlock.uniformData)
        else
          ReadFromDefaultUniformBlock linkedUniform.type.count locationInfo.arrayIndex
            dst layoutInfo uniformBlock.uniformData
      else
        none

/-- `ProgramVk::setUniform1iv`: samplers are filtered out with a silent early
return (their mapping is handled entirely in ContextVk); everything else goes
through `setUniformImpl` with entry point type `GL_INT`. -/
def setUniform1iv (location count : Nat) (v : List Int) (st : ProgState) :
    Option ProgState :=
  let locationInfo := st.uniformLocations.getD location default
  let linkedUniform := st.uniforms.getD locationInfo.index default
  if linkedUniform.type.sampler then
    some st
  else
    setUniformImpl location count v ⟨CompType.tInt, 1, false, false, false⟩ st

/-! ## `ProgramVk::setUniformMatrixfv` -/

/-- Modelled from the spec: `SetFloatUniformMatrixGLSL<cols, rows>::Run`
(renderer_utils, not under src/) writes `count` matrices of `cols × rows`
4-byte float components starting at array element `arrayIndex` (clamped to
the variable's array size product) into the destination bytes at the given
offset. -/
def SetFloatUniformMatrixGLSL (cols rows arrayIndex arraySizeProduct count : Nat)
    (_transpose : Bool) (value : List Nat) (dstOffset : Nat) (buf : MemoryBuffer) :
    MemoryBuffer :=
  let matrixSize := 4 * cols * rows
  let clampedCount := min count (arraySizeProduct - arrayIndex)
  ⟨writeBytes buf.data (dstOffset + arrayIndex * matrixSize)
      (readBytes value 0 (matrixSize * clampedCount)), buf.size⟩

/-- Per-stage body of `setUniformMatrixfv`: skip the stage when
`layoutInfo.offset == -1`, otherwise run the matrix write and mark the stage
dirty.  This path contains no `ASSERT`. -/
def setUniformMatrixAct (cols rows location count arrayIndex arraySizeProduct : Nat)
    (transpose : Bool) (value : List Nat) (block : DefaultUniformBlock) :
    Option (DefaultUniformBlock × Bool) :=
  let layoutInfo := block.uniformLayout.getD location default
  if layoutInfo.offset = -1 then
    some (block, false)
  else
    some ({ block with uniformData :=
      (SetFloatUniformMatrixGLSL cols rows arrayIndex arraySizeProduct count transpose
        value layoutInfo.offset.toNat block.uniformData) }, true)

/-- `ProgramVk::setUniformMatrixfv<cols, rows>`. -/
def setUniformMatrixfv (cols rows location count : Nat) (transpose : Bool)
    (value : List Nat) (st : ProgState) : Option ProgState :=
  let locationInfo := st.uniformLocations.getD location default
  let linkedUniform := st.uniforms.getD locationInfo.index default
  forStages
    (setUniformMatrixAct cols rows location count locationInfo.arrayIndex
      linkedUniform.arraySizeProduct transpose value)
    st.linkedStages st

/-! ## `ProgramVk::initDefaultUniformLayoutMapping` -/

/-- Modelled from the spec: `gl::StripLastArrayIndex` (common/utilities, not
under src/) removes the trailing bracketed array index from a uniform name
(the list "arr[0]" becomes "arr"); a name without a bracket is returned
unchanged. -/
def stripLastArrayIndex (name : List Char) : List Char :=
  match name.reverse.dropWhile (fun c => c ≠ '[') with
  | [] => name
  | _ :: rest => rest.reverse

/-- The stage loop of `initDefaultUniformLayoutMapping`: look the name up in
each linked stage's layout map, recording hits per stage and whether any
stage had the name (`found`). -/
def lookupStages (layoutMap : ShaderType → List (List Char × BlockMemberInfo))
    (uniformName : List Char) :
    List ShaderType → (ShaderType → BlockMemberInfo) → Bool →
      (ShaderType → BlockMemberInfo) × Bool
  | [], acc, found => (acc, found)
  | stage :: rest, acc, found =>
      match List.lookup uniformName (layoutMap stage) with
      | some info =>
          lookupStages layoutMap uniformName rest (Function.update acc stage info) true
      | none => lookupStages layoutMap uniformName rest acc found

/-- The per-location body of `ProgramVk::initDefaultUniformLayoutMapping`:
for a used, non-ignored location whose uniform lives in the default block and
is neither sampler, image, nor fragment inout, look up the (array-stripped)
name in every linked stage's layout map.  The `ASSERT`s — an array name must
shrink when stripped, and the name must be found in at least one linked stage
— are modelled by `none`.  Every other location keeps the default
all-(-1) records. -/
def resolveLocation (layoutMap : ShaderType → List (List Char × BlockMemberInfo))
    (uniforms : List LinkedUniform) (linkedStages : List ShaderType)
    (location : VariableLocation) : Option (ShaderType → BlockMemberInfo) :=
  if location.used ∧ ¬location.ignored then
    let uniform := uniforms.getD location.index default
    if uniform.inDefaultBlock ∧ ¬uniform.type.sampler ∧ ¬uniform.type.image ∧
        ¬uniform.isFragmentInOut then
      let uniformName :=
        if uniform.isArray then stripLastArrayIndex uniform.name else uniform.name
      if uniform.isArray ∧ uniformName.length = uniform.name.length then
        none
      else
        match lookupStages layoutMap uniformName linkedStages (fun _ => default) false with
        | (layoutInfo, true) => some layoutInfo
        | (_, false) => none
    else
      some (fun _ => default)
  else
    some (fun _ => default)

/-- `ProgramVk::initDefaultUniformLayoutMapping`: one per-stage record map per
uniform location, in location order; `none` models a fatal `ASSERT`. -/
def initDefaultUniformLayoutMapping
    (layoutMap : ShaderType → List (List Char × BlockMemberInfo)) (st : ProgState) :
    Option (List (ShaderType → BlockMemberInfo)) :=
  st.uniformLocations.mapM (resolveLocation layoutMap st.uniforms st.linkedStages)

/-! ## `InitDefaultUniformBlock` and the layout encoder -/

/-- The slice of `sh::ShaderVariable` consumed by the layout encoder. -/
structure ShaderVariable where
  name : List Char
  count : Nat
  arraySize : Nat
  matrix : Bool
  cols : Nat
  isRowMajor : Bool
  isOpaque : Bool
deriving DecidableEq, Repr

/-- Round `n` up to a multiple of `a`. -/
def alignUp (n a : Nat) : Nat :=
  if a = 0 then n else (n + a - 1) / a * a

/-- Vector alignment rounding: 3-component vectors align as 4. -/
def roundComponents (c : Nat) : Nat :=
  if c = 3 then 4 else c

/-- Modelled from the spec: the std140 placement of one non-opaque variable
(`sh::Std140BlockEncoder`, translator code not under src/): each scalar
aligns to its 4-byte size, vectors round up to 2 or 4 scalar units, array
elements and matrix columns are padded to 16-byte boundaries, and the cursor
advances by `arrayStride × arrayLength` (or the matrix equivalent). -/
def encodeVar (v : ShaderVariable) (cursor : Nat) : BlockMemberInfo × Nat :=
  let scalarSize := 4
  let baseAlignment :=
    if v.arraySize ≠ 0 ∨ v.matrix then 16 else scalarSize * roundComponents v.count
  let offset := alignUp cursor baseAlignment
  let arrayStride := if v.arraySize ≠ 0 then alignUp (scalarSize * v.count) 16 else 0
  let matrixStride := if v.matrix then 16 else 0
  let size :=
    if v.arraySize ≠ 0 then arrayStride * v.arraySize
    else if v.matrix then matrixStride * v.cols
    else scalarSize * v.count
  (⟨(offset : Int), (arrayStride : Int), (matrixStride : Int), v.isRowMajor⟩,
    offset + size)

/-- Modelled from the spec: `sh::GetActiveUniformBlockInfo` driving the
`VulkanDefaultBlockEncoder` (translator code not under src/): walk the
variables in declaration order; an opaque-typed member is skipped entirely
(the overridden `advanceOffset` returns without advancing, and the member
contributes no mapping entry); every other member is placed by the std140
rules. -/
def encodeVars : List ShaderVariable → Nat → List (List Char × BlockMemberInfo) × Nat
  | [], cursor => ([], cursor)
  | v :: rest, cursor =>
      if v.isOpaque then encodeVars rest cursor
      else
        let (info, cursor2) := encodeVar v cursor
        let (entries, total) := encodeVars rest cursor2
        ((v.name, info) :: entries, total)

/-- `InitDefaultUniformBlock` (anonymous namespace of ProgramVk.cpp): returns
the layout map and computed block size; an empty uniform list short-circuits
to size 0, and a computed block size of 0 is also returned as 0. -/
def InitDefaultUniformBlock (uniforms : List ShaderVariable) :
    List (List Char × BlockMemberInfo) × Nat :=
  if uniforms.isEmpty then ([], 0)
  else
    let (blockLayoutMap, blockSize) := encodeVars uniforms 0
    if blockSize = 0 then (blockLayoutMap, 0)
    else (blockLayoutMap, blockSize)

/-! ## Behaviour of the stage fold -/

/-- The successor state the stage loop passes to the next iteration. -/
def stageStep (st : ProgState) (stage : ShaderType) (block : DefaultUniformBlock)
    (touched : Bool) : ProgState :=
  { st with
    blocks := Function.update st.blocks stage block,
    dirty := if touched then Function.update st.dirty stage true else st.dirty }

/-- A concrete one-stage program with an int 2-vector at location 0
(offset 0, non-array). -/
def egStateIntVec : ProgState :=
  ⟨[⟨0, 0, true, false⟩],
    [⟨⟨CompType.tInt, 2, false, false, false⟩, ['w'], false, true, false, 1,
      fun s => decide (s = ShaderType.Vertex)⟩],
    [ShaderType.Vertex],
    fun _ => ⟨[⟨0, 0, 0, false⟩], ⟨List.replicate 8 9, 8⟩⟩,
    fun _ => false⟩

/-- A plain float scalar `GL_FLOAT`. -/
def floatScalar : GLType := ⟨CompType.tFloat, 1, false, false, false⟩

/-- A concrete non-sampler uniform active in the vertex stage only. -/
def egUniformFloat : LinkedUniform :=
  ⟨floatScalar, ['u'], false, true, false, 1, fun s => decide (s = ShaderType.Vertex)⟩

/-- A concrete block whose only location carries the -1 sentinel record. -/
def egBlockSentinel : DefaultUniformBlock :=
  ⟨[⟨-1, -1, -1, false⟩], ⟨[3, 3, 3, 3], 4⟩⟩

/-- A concrete one-stage program state whose location 0 is unused in the
stage's block. -/
def egStateSentinel : ProgState :=
  ⟨[⟨0, 0, true, false⟩], [egUniformFloat], [ShaderType.Vertex],
    fun _ => egBlockSentinel, fun _ => false⟩

/-- A concrete one-stage program whose location 0 is a 2-element boolean
scalar array at offset 0 with arrayStride 4, in a stage block of allocated
size 4 whose backing memory is 12 bytes (so writes past the allocated size
are observable). -/
def egStateBoolOOB : ProgState :=
  ⟨[⟨0, 0, true, false⟩],
    [⟨⟨CompType.tBool, 1, false, false, false⟩, ['b'], true, true, false, 2,
      fun s => decide (s = ShaderType.Vertex)⟩],
    [ShaderType.Vertex],
    fun _ => ⟨[⟨0, 4, 0, false⟩], ⟨[9, 9, 9, 9, 9, 9, 9, 9, 9, 9, 9, 9], 4⟩⟩,
    fun _ => false⟩

/-- A concrete one-stage program with a boolean 4-vector at location 0
(offset 0, no array). -/
def egStateBoolVec : ProgState :=
  ⟨[⟨0, 0, true, false⟩],
    [⟨⟨CompType.tBool, 4, false, false, false⟩, ['b'], false, true, false, 1,
      fun s => decide (s = ShaderType.Vertex)⟩],
    [ShaderType.Vertex],
    fun _ => ⟨[⟨0, 0, 0, false⟩], ⟨List.replicate 16 9, 16⟩⟩,
    fun _ => false⟩

/-- A concrete `GL_IMAGE_2D`-style type (opaque, image). -/
def imageType : GLType := ⟨CompType.tInt, 1, false, false, true⟩

/-- A concrete one-stage program whose only uniform is image-typed, with the
all-(-1) layout record the resolver produces for opaque types. -/
def egStateImage : ProgState :=
  ⟨[⟨0, 0, true, false⟩],
    [⟨imageType, ['i'], false, false, false, 1, fun s => decide (s = ShaderType.Vertex)⟩],
    [ShaderType.Vertex], fun _ => egBlockSentinel, fun _ => false⟩

/-- A concrete two-stage program: location 0 lives at offset 0 in the vertex
stage's block and is unused (-1) in the fragment stage's block. -/
def egStateTwoStages : ProgState :=
  ⟨[⟨0, 0, true, false⟩], [egUniformFloat], [ShaderType.Vertex, ShaderType.Fragment],
    fun stage => if stage = ShaderType.Vertex then
      ⟨[⟨0, 0, 0, false⟩], ⟨[9, 9, 9, 9], 4⟩⟩
    else
      ⟨[⟨-1, -1, -1, false⟩], ⟨[], 0⟩⟩,
    fun _ => false⟩

/-! ## Theorems -/

theorem writeBytes_nil_src (buf : List Nat) (off : Nat) :
    writeBytes buf off [] = buf := by
  cases buf with
  | nil => rfl
  | cons b bs => cases off <;> rfl

theorem length_writeBytes (buf : List Nat) (off : Nat) (src : List Nat) :
    (writeBytes buf off src).length = buf.length := by
  induction buf generalizing off src with
  | nil => cases src with
    | nil => rfl
    | cons s ss => rfl
  | cons b bs ih =>
    cases src with
    | nil => rw [writeBytes_nil_src]
    | cons s ss =>
      cases off with
      | zero => simpa [writeBytes] using ih 0 ss
      | succ n => simpa [writeBytes] using ih n (s :: ss)

/-- Pointwise description of `writeBytes`. -/
theorem getElem?_writeBytes (buf : List Nat) (off : Nat) (src : List Nat) (i : Nat) :
    (writeBytes buf off src)[i]? =
      if off ≤ i ∧ i - off < src.length ∧ i < buf.length then src[i - off]? else buf[i]? := by
  induction buf generalizing off src i with
  | nil => simp [writeBytes]
  | cons b bs ih =>
    cases src with
    | nil => rw [writeBytes_nil_src]; simp
    | cons s ss =>
      cases off with
      | zero =>
        cases i with
        | zero => simp [writeBytes]
        | succ j =>
          have h := ih 0 ss j
          simp only [writeBytes, List.getElem?_cons_succ, List.length_cons, Nat.sub_zero]
          simp only [List.length_cons, Nat.sub_zero] at h
          rw [h]
          exact if_congr (by omega) rfl rfl
      | succ n =>
        cases i with
        | zero => simp [writeBytes]
        | succ j =>
          have h := ih n (s :: ss) j
          simp only [writeBytes, List.getElem?_cons_succ, List.length_cons,
            Nat.add_sub_add_right]
          simp only [List.length_cons] at h
          rw [h]
          exact if_congr (by omega) rfl rfl

theorem getElem?_writeBytes_of_lt (buf : List Nat) (off : Nat) (src : List Nat) (i : Nat)
    (h : i < off) : (writeBytes buf off src)[i]? = buf[i]? := by
  rw [getElem?_writeBytes]
  have : ¬(off ≤ i ∧ i - off < src.length ∧ i < buf.length) := by omega
  rw [if_neg this]

theorem getElem?_writeBytes_of_ge (buf : List Nat) (off : Nat) (src : List Nat) (i : Nat)
    (h : off + src.length ≤ i) : (writeBytes buf off src)[i]? = buf[i]? := by
  rw [getElem?_writeBytes]
  have : ¬(off ≤ i ∧ i - off < src.length ∧ i < buf.length) := by omega
  rw [if_neg this]

theorem getElem?_writeBytes_of_mem (buf : List Nat) (off : Nat) (src : List Nat) (i : Nat)
    (h1 : off ≤ i) (h2 : i - off < src.length) (h3 : i < buf.length) :
    (writeBytes buf off src)[i]? = src[i - off]? := by
  rw [getElem?_writeBytes, if_pos ⟨h1, h2, h3⟩]

theorem length_readBytes (buf : List Nat) (off len : Nat) :
    (readBytes buf off len).length = min len (buf.length - off) := by
  simp [readBytes]

theorem getElem?_readBytes (buf : List Nat) (off len i : Nat) :
    (readBytes buf off len)[i]? = if i < len then buf[off + i]? else none := by
  unfold readBytes
  by_cases h : i < len
  · rw [if_pos h, List.getElem?_take_of_lt h, List.getElem?_drop]
  · rw [if_neg h, List.getElem?_eq_none]
    have := List.length_take_le len (buf.drop off)
    omega

/-- Reading back exactly the bytes just written. -/
theorem readBytes_writeBytes_self (buf : List Nat) (off : Nat) (src : List Nat) (len : Nat)
    (hlen : len ≤ src.length) (hbuf : off + len ≤ buf.length) :
    readBytes (writeBytes buf off src) off len = readBytes src 0 len := by
  apply List.ext_getElem?
  intro i
  rw [getElem?_readBytes, getElem?_readBytes]
  by_cases h : i < len
  · rw [if_pos h, if_pos h, Nat.zero_add]
    rw [getElem?_writeBytes_of_mem buf off src (off + i) (by omega) (by omega) (by omega)]
    congr 1
    omega
  · rw [if_neg h, if_neg h]

/-- Reading a region disjoint from the written one sees the old bytes. -/
theorem readBytes_writeBytes_disjoint (buf : List Nat) (off : Nat) (src : List Nat)
    (off2 len2 : Nat) (h : off2 + len2 ≤ off ∨ off + src.length ≤ off2) :
    readBytes (writeBytes buf off src) off2 len2 = readBytes buf off2 len2 := by
  apply List.ext_getElem?
  intro i
  rw [getElem?_readBytes, getElem?_readBytes]
  by_cases hi : i < len2
  · rw [if_pos hi, if_pos hi]
    rcases h with h | h
    · exact getElem?_writeBytes_of_lt _ _ _ _ (by omega)
    · exact getElem?_writeBytes_of_ge _ _ _ _ (by omega)
  · rw [if_neg hi, if_neg hi]

theorem length_encodeGLint (n : Int) : (encodeGLint n).length = 4 := rfl

theorem length_glintBytes (v : List Int) : (glintBytes v).length = 4 * v.length := by
  induction v with
  | nil => rfl
  | cons a l ih =>
    simp only [glintBytes, List.map_cons, List.flatten_cons, List.length_append,
      List.length_cons, length_encodeGLint] at *
    omega

theorem forStages_nil (act : DefaultUniformBlock → Option (DefaultUniformBlock × Bool))
    (st : ProgState) : forStages act [] st = some st := rfl

theorem forStages_cons_none (act : DefaultUniformBlock → Option (DefaultUniformBlock × Bool))
    (stage : ShaderType) (rest : List ShaderType) (st : ProgState)
    (hact : act (st.blocks stage) = none) :
    forStages act (stage :: rest) st = none := by
  unfold forStages
  rw [hact]

theorem forStages_cons_some (act : DefaultUniformBlock → Option (DefaultUniformBlock × Bool))
    (stage : ShaderType) (rest : List ShaderType) (st : ProgState)
    (block : DefaultUniformBlock) (touched : Bool)
    (hact : act (st.blocks stage) = some (block, touched)) :
    forStages act (stage :: rest) st =
      forStages act rest (stageStep st stage block touched) := by
  conv_lhs => unfold forStages
  rw [hact]
  exact rfl

theorem forStages_fields (act : DefaultUniformBlock → Option (DefaultUniformBlock × Bool))
    (stages : List ShaderType) (st st' : ProgState)
    (h : forStages act stages st = some st') :
    st'.uniformLocations = st.uniformLocations ∧ st'.uniforms = st.uniforms ∧
      st'.linkedStages = st.linkedStages := by
  induction stages generalizing st with
  | nil =>
    rw [forStages_nil] at h
    cases h
    exact ⟨rfl, rfl, rfl⟩
  | cons stage rest ih =>
    cases hact : act (st.blocks stage) with
    | none => rw [forStages_cons_none act stage rest st hact] at h; cases h
    | some p =>
      obtain ⟨block, touched⟩ := p
      rw [forStages_cons_some act stage rest st block touched hact] at h
      exact ih (stageStep st stage block touched) h

theorem forStages_not_mem (act : DefaultUniformBlock → Option (DefaultUniformBlock × Bool))
    (stages : List ShaderType) (S : ShaderType) (hS : S ∉ stages) (st st' : ProgState)
    (h : forStages act stages st = some st') :
    st'.blocks S = st.blocks S ∧ st'.dirty S = st.dirty S := by
  induction stages generalizing st with
  | nil =>
    rw [forStages_nil] at h
    cases h
    exact ⟨rfl, rfl⟩
  | cons stage rest ih =>
    have hne : S ≠ stage := fun he => hS (he ▸ List.mem_cons_self stage rest)
    have hSr : S ∉ rest := fun hm => hS (List.mem_cons_of_mem _ hm)
    cases hact : act (st.blocks stage) with
    | none => rw [forStages_cons_none act stage rest st hact] at h; cases h
    | some p =>
      obtain ⟨block, touched⟩ := p
      rw [forStages_cons_some act stage rest st block touched hact] at h
      obtain ⟨hb, hd⟩ := ih hSr _ h
      constructor
      · rw [hb]
        simp [stageStep, Function.update_noteq hne]
      · rw [hd]
        cases touched <;> simp [stageStep, Function.update_noteq hne]

/-- Under a duplicate-free stage list, a successful fold applies the
per-stage action exactly once to each member stage's block, ORs the touched
flag into that stage's dirty bit, and leaves everything else alone. -/
theorem forStages_mem (act : DefaultUniformBlock → Option (DefaultUniformBlock × Bool))
    (stages : List ShaderType) (S : ShaderType) (hnd : stages.Nodup) (hS : S ∈ stages)
    (st st' : ProgState) (h : forStages act stages st = some st') :
    ∃ block touched, act (st.blocks S) = some (block, touched) ∧
      st'.blocks S = block ∧ st'.dirty S = (st.dirty S || touched) := by
  induction stages generalizing st with
  | nil => cases hS
  | cons stage rest ih =>
    cases hact : act (st.blocks stage) with
    | none => rw [forStages_cons_none act stage rest st hact] at h; cases h
    | some p =>
      obtain ⟨block, touched⟩ := p
      rw [forStages_cons_some act stage rest st block touched hact] at h
      rcases List.mem_cons.mp hS with he | hm
      · subst he
        have hSr : S ∉ rest := (List.nodup_cons.mp hnd).1
        obtain ⟨hb, hd⟩ := forStages_not_mem act rest S hSr _ _ h
        refine ⟨block, touched, hact, ?_, ?_⟩
        · rw [hb]
          simp [stageStep]
        · rw [hd]
          cases touched <;> simp [stageStep]
      · have hnd' := (List.nodup_cons.mp hnd).2
        have hne : S ≠ stage := fun he => (List.nodup_cons.mp hnd).1 (he ▸ hm)
        obtain ⟨b2, t2, hact2, hb2, hd2⟩ := ih hnd' hm _ h
        refine ⟨b2, t2, ?_, hb2, ?_⟩
        · simp only [stageStep] at hact2
          rw [Function.update_noteq hne] at hact2
          exact hact2
        · rw [hd2]
          cases touched <;> simp [stageStep, Function.update_noteq hne]

/-! ## Behaviour of the write loops -/

theorem readBytes_readBytes (buf : List Nat) (off len a b : Nat) (h : a + b ≤ len) :
    readBytes (readBytes buf off len) a b = readBytes buf (off + a) b := by
  apply List.ext_getElem?
  intro i
  by_cases hi : i < b
  · rw [getElem?_readBytes, if_pos hi, getElem?_readBytes, if_pos (by omega),
      getElem?_readBytes, if_pos hi, ← Nat.add_assoc]
  · rw [getElem?_readBytes, if_neg hi, getElem?_readBytes, if_neg hi]

theorem readBytes_zero_of_le (src : List Nat) (len : Nat) (h : src.length ≤ len) :
    readBytes src 0 len = src := by
  simp only [readBytes, List.drop_zero]
  exact List.take_of_length_le h

theorem updateLoop_zero (base stride elementSize : Nat) (v : List Nat)
    (writeIndex readIndex : Nat) (buf : MemoryBuffer) :
    updateLoop base stride elementSize v writeIndex readIndex 0 buf = (true, buf) := rfl

theorem updateLoop_succ_pos (base stride elementSize : Nat) (v : List Nat)
    (writeIndex readIndex n : Nat) (buf : MemoryBuffer)
    (h : base + writeIndex * stride + elementSize ≤ buf.size) :
    updateLoop base stride elementSize v writeIndex readIndex (n + 1) buf =
      updateLoop base stride elementSize v (writeIndex + 1) (readIndex + 1) n
        ⟨writeBytes buf.data (base + writeIndex * stride)
          (readBytes v (readIndex * elementSize) elementSize), buf.size⟩ := by
  conv_lhs => unfold updateLoop
  rw [if_pos h]

theorem updateLoop_succ_neg (base stride elementSize : Nat) (v : List Nat)
    (writeIndex readIndex n : Nat) (buf : MemoryBuffer)
    (h : ¬(base + writeIndex * stride + elementSize ≤ buf.size)) :
    updateLoop base stride elementSize v writeIndex readIndex (n + 1) buf = (false, buf) := by
  conv_lhs => unfold updateLoop
  rw [if_neg h]

theorem updateLoop_succ_pos_mk (base stride elementSize : Nat) (v : List Nat)
    (writeIndex readIndex n : Nat) (data : List Nat) (size : Nat)
    (h : base + writeIndex * stride + elementSize ≤ size) :
    updateLoop base stride elementSize v writeIndex readIndex (n + 1) ⟨data, size⟩ =
      updateLoop base stride elementSize v (writeIndex + 1) (readIndex + 1) n
        ⟨writeBytes data (base + writeIndex * stride)
          (readBytes v (readIndex * elementSize) elementSize), size⟩ :=
  updateLoop_succ_pos base stride elementSize v writeIndex readIndex n ⟨data, size⟩ h

theorem updateLoop_succ_neg_mk (base stride elementSize : Nat) (v : List Nat)
    (writeIndex readIndex n : Nat) (data : List Nat) (size : Nat)
    (h : ¬(base + writeIndex * stride + elementSize ≤ size)) :
    updateLoop base stride elementSize v writeIndex readIndex (n + 1) ⟨data, size⟩ =
      (false, ⟨data, size⟩) :=
  updateLoop_succ_neg base stride elementSize v writeIndex readIndex n ⟨data, size⟩ h

/-- Full behaviour of a successful strided write loop when `elementSize ≤
stride` (element slots do not overlap): a run whose per-element bounds all
hold succeeds, places each element's source bytes exactly at its slot
`base + (writeIndex + m) * stride`, and leaves every byte outside the written
slots unchanged. -/
theorem updateLoop_spec (base stride elementSize : Nat) (v : List Nat)
    (hse : elementSize ≤ stride) :
    ∀ (n writeIndex readIndex : Nat) (data : List Nat) (size : Nat),
      size ≤ data.length →
      (∀ m, m < n → base + (writeIndex + m) * stride + elementSize ≤ size) →
      (readIndex + n) * elementSize ≤ v.length →
      ∃ data' : List Nat,
        updateLoop base stride elementSize v writeIndex readIndex n ⟨data, size⟩ =
          (true, ⟨data', size⟩) ∧
        data'.length = data.length ∧
        (∀ m, m < n →
          readBytes data' (base + (writeIndex + m) * stride) elementSize =
            readBytes v ((readIndex + m) * elementSize) elementSize) ∧
        (∀ j, (∀ m, m < n → j < base + (writeIndex + m) * stride ∨
            base + (writeIndex + m) * stride + elementSize ≤ j) →
          data'[j]? = data[j]?) := by
  intro n
  induction n with
  | zero =>
    intro writeIndex readIndex data size hwf hbound hv
    exact ⟨data, updateLoop_zero _ _ _ _ _ _ _, rfl,
      fun m hm => absurd hm (by omega), fun j _ => rfl⟩
  | succ n ih =>
    intro writeIndex readIndex data size hwf hbound hv
    have h0 : base + writeIndex * stride + elementSize ≤ size := by
      have h00 := hbound 0 (by omega)
      simpa using h00
    have hexp : (readIndex + (n + 1)) * elementSize
        = readIndex * elementSize + n * elementSize + elementSize := by ring
    have hv0 : readIndex * elementSize + elementSize ≤ v.length := by
      rw [hexp] at hv
      omega
    have hsrc0len : (readBytes v (readIndex * elementSize) elementSize).length
        = elementSize := by
      rw [length_readBytes]
      omega
    have hlen1 : (writeBytes data (base + writeIndex * stride)
        (readBytes v (readIndex * elementSize) elementSize)).length = data.length :=
      length_writeBytes _ _ _
    have hbound1 : ∀ m, m < n →
        base + (writeIndex + 1 + m) * stride + elementSize ≤ size := by
      intro m hm
      have h1 := hbound (m + 1) (by omega)
      have he : writeIndex + (m + 1) = writeIndex + 1 + m := by omega
      rw [he] at h1
      exact h1
    have hv1 : (readIndex + 1 + n) * elementSize ≤ v.length := by
      have he : readIndex + 1 + n = readIndex + (n + 1) := by omega
      rw [he]
      exact hv
    obtain ⟨data', hrun, hlen, helem, huntouched⟩ :=
      ih (writeIndex + 1) (readIndex + 1)
        (writeBytes data (base + writeIndex * stride)
          (readBytes v (readIndex * elementSize) elementSize)) size
        (by rw [hlen1]; exact hwf) hbound1 hv1
    refine ⟨data', ?_, ?_, ?_, ?_⟩
    · rw [updateLoop_succ_pos_mk base stride elementSize v writeIndex readIndex n data
        size h0]
      exact hrun
    · rw [hlen, hlen1]
    · intro m hm
      cases m with
      | zero =>
        simp only [Nat.add_zero]
        have hstep : readBytes data' (base + writeIndex * stride) elementSize
            = readBytes (writeBytes data (base + writeIndex * stride)
                (readBytes v (readIndex * elementSize) elementSize))
              (base + writeIndex * stride) elementSize := by
          apply List.ext_getElem?
          intro i
          rw [getElem?_readBytes, getElem?_readBytes]
          by_cases hi : i < elementSize
          · rw [if_pos hi, if_pos hi]
            apply huntouched
            intro m hm2
            left
            have hmul : (writeIndex + 1) * stride ≤ (writeIndex + 1 + m) * stride :=
              Nat.mul_le_mul_right _ (by omega)
            have hdist : (writeIndex + 1) * stride = writeIndex * stride + stride := by
              ring
            omega
          · rw [if_neg hi, if_neg hi]
        rw [hstep]
        rw [readBytes_writeBytes_self _ _ _ _ (by rw [hsrc0len]) (by omega)]
        exact readBytes_zero_of_le _ _ (by rw [hsrc0len])
      | succ m =>
        have h1 := helem m (by omega)
        have he1 : writeIndex + (m + 1) = writeIndex + 1 + m := by omega
        have he2 : readIndex + (m + 1) = readIndex + 1 + m := by omega
        rw [he1, he2]
        exact h1
    · intro j hj
      have hj1 : ∀ m, m < n → j < base + (writeIndex + 1 + m) * stride ∨
          base + (writeIndex + 1 + m) * stride + elementSize ≤ j := by
        intro m hm
        have h1 := hj (m + 1) (by omega)
        have he : writeIndex + (m + 1) = writeIndex + 1 + m := by omega
        rw [he] at h1
        exact h1
      rw [huntouched j hj1]
      have h00 := hj 0 (by omega)
      simp only [Nat.add_zero] at h00
      rcases h00 with hlt | hge
      · exact getElem?_writeBytes_of_lt _ _ _ _ hlt
      · exact getElem?_writeBytes_of_ge _ _ _ _ (by rw [hsrc0len]; omega)

/-- The strided loop never modifies a byte at or beyond the allocated size:
each element's bytes are written only after its bounds `ASSERT` passes, and a
failing `ASSERT` stops the loop before the offending write. -/
theorem updateLoop_oob (base stride elementSize : Nat) (v : List Nat) :
    ∀ (n writeIndex readIndex : Nat) (data : List Nat) (size : Nat),
      (updateLoop base stride elementSize v writeIndex readIndex n ⟨data, size⟩).2.size
          = size ∧
      ∀ j, size ≤ j →
        (updateLoop base stride elementSize v writeIndex readIndex n
            ⟨data, size⟩).2.data[j]? = data[j]? := by
  intro n
  induction n with
  | zero =>
    intro wI rI data size
    exact ⟨rfl, fun j _ => rfl⟩
  | succ n ih =>
    intro wI rI data size
    by_cases h : base + wI * stride + elementSize ≤ size
    · rw [updateLoop_succ_pos_mk base stride elementSize v wI rI n data size h]
      obtain ⟨hs, hd⟩ := ih (wI + 1) (rI + 1)
        (writeBytes data (base + wI * stride)
          (readBytes v (rI * elementSize) elementSize)) size
      refine ⟨hs, fun j hj => ?_⟩
      rw [hd j hj]
      refine getElem?_writeBytes_of_ge _ _ _ _ ?_
      have hl := length_readBytes v (rI * elementSize) elementSize
      omega
    · rw [updateLoop_succ_neg_mk base stride elementSize v wI rI n data size h]
      exact ⟨rfl, fun j _ => rfl⟩

/-- The strided loop reports success exactly when every element's bounds
check holds (the slots are visited in increasing order, so a violating
combination is always detected). -/
theorem updateLoop_detect (base stride elementSize : Nat) (v : List Nat) :
    ∀ (n writeIndex readIndex : Nat) (data : List Nat) (size : Nat),
      ((updateLoop base stride elementSize v writeIndex readIndex n ⟨data, size⟩).1 = true ↔
        ∀ m, m < n → base + (writeIndex + m) * stride + elementSize ≤ size) := by
  intro n
  induction n with
  | zero =>
    intro wI rI data size
    simp [updateLoop_zero]
  | succ n ih =>
    intro wI rI data size
    by_cases h : base + wI * stride + elementSize ≤ size
    · rw [updateLoop_succ_pos_mk base stride elementSize v wI rI n data size h, ih]
      constructor
      · intro hall m hm
        cases m with
        | zero => simpa using h
        | succ m =>
          have h1 := hall m (by omega)
          have he : wI + (m + 1) = wI + 1 + m := by omega
          rw [he]
          exact h1
      · intro hall m hm
        have h1 := hall (m + 1) (by omega)
        have he : wI + (m + 1) = wI + 1 + m := by omega
        rw [he] at h1
        exact h1
    · rw [updateLoop_succ_neg_mk base stride elementSize v wI rI n data size h]
      constructor
      · intro hf
        simp at hf
      · intro hall
        exact absurd (by simpa using hall 0 (by omega)) h

theorem UpdateDefaultUniformBlock_eq_contig (count arrayIndex componentCount : Nat)
    (v : List Nat) (layoutInfo : BlockMemberInfo) (buf : MemoryBuffer)
    (hc : layoutInfo.arrayStride = 0 ∨
      layoutInfo.arrayStride = ((4 * componentCount : Nat) : Int)) :
    UpdateDefaultUniformBlock count arrayIndex componentCount v layoutInfo buf =
      if layoutInfo.offset.toNat + arrayIndex * layoutInfo.arrayStride.toNat +
          4 * componentCount * count ≤ buf.size then
        (true, ⟨writeBytes buf.data
          (layoutInfo.offset.toNat + arrayIndex * layoutInfo.arrayStride.toNat)
          (readBytes v 0 (4 * componentCount * count)), buf.size⟩)
      else (false, buf) := by
  unfold UpdateDefaultUniformBlock
  rw [if_pos hc]

theorem UpdateDefaultUniformBlock_eq_strided (count arrayIndex componentCount : Nat)
    (v : List Nat) (layoutInfo : BlockMemberInfo) (buf : MemoryBuffer)
    (hc : ¬(layoutInfo.arrayStride = 0 ∨
      layoutInfo.arrayStride = ((4 * componentCount : Nat) : Int))) :
    UpdateDefaultUniformBlock count arrayIndex componentCount v layoutInfo buf =
      updateLoop layoutInfo.offset.toNat layoutInfo.arrayStride.toNat
        (4 * componentCount) v arrayIndex 0 count buf := by
  unfold UpdateDefaultUniformBlock
  rw [if_neg hc]

/-- Writing a single element lands at `offset + arrayIndex * arrayStride` in
both branches of `UpdateDefaultUniformBlock`. -/
theorem UpdateDefaultUniformBlock_one (arrayIndex componentCount : Nat) (v : List Nat)
    (layoutInfo : BlockMemberInfo) (buf : MemoryBuffer)
    (hb : layoutInfo.offset.toNat + arrayIndex * layoutInfo.arrayStride.toNat +
      4 * componentCount ≤ buf.size) :
    UpdateDefaultUniformBlock 1 arrayIndex componentCount v layoutInfo buf =
      (true, ⟨writeBytes buf.data
        (layoutInfo.offset.toNat + arrayIndex * layoutInfo.arrayStride.toNat)
        (readBytes v 0 (4 * componentCount)), buf.size⟩) := by
  by_cases hc : layoutInfo.arrayStride = 0 ∨
      layoutInfo.arrayStride = ((4 * componentCount : Nat) : Int)
  · rw [UpdateDefaultUniformBlock_eq_contig 1 arrayIndex componentCount v layoutInfo buf hc]
    rw [if_pos (by rw [Nat.mul_one]; exact hb)]
    rw [Nat.mul_one]
  · rw [UpdateDefaultUniformBlock_eq_strided 1 arrayIndex componentCount v layoutInfo
      buf hc]
    rw [updateLoop_succ_pos _ _ _ _ _ _ _ _ hb, updateLoop_zero, Nat.zero_mul]

theorem glintBytes_cons (a : Int) (l : List Int) :
    glintBytes (a :: l) = encodeGLint a ++ glintBytes l := by
  simp [glintBytes]

/-- Reading the `c`-th 4-byte group of a serialized `GLint` list. -/
theorem glintBytes_component (w : List Int) (c : Nat) (hc : c < w.length) :
    readBytes (glintBytes w) (4 * c) 4 = encodeGLint (w.getD c 0) := by
  induction w generalizing c with
  | nil => exact absurd hc (by simp)
  | cons a l ih =>
    cases c with
    | zero =>
      rw [glintBytes_cons]
      simp only [Nat.mul_zero, readBytes, List.drop_zero, List.getD]
      have h4 : (encodeGLint a).length = 4 := length_encodeGLint a
      rw [← h4, List.take_left]
      rfl
    | succ c =>
      rw [glintBytes_cons]
      have he : 4 * (c + 1) = (encodeGLint a).length + 4 * c := by
        rw [length_encodeGLint]
        omega
      unfold readBytes
      rw [he, List.drop_append]
      have := ih c (by simpa using hc)
      unfold readBytes at this
      rw [this]
      rfl

/-- The bytes the coercion loop writes for one element are the serialization
of the component-wise zero test. -/
theorem coerced_eq_glintBytes (w : List Int) :
    (w.map (fun x => encodeGLint (if x = 0 then 0 else 1))).flatten
      = glintBytes (w.map (fun x => if x = 0 then (0 : Int) else 1)) := by
  unfold glintBytes
  rw [List.map_map]
  rfl

theorem boolCoerceLoop_zero (initialArrayOffset stride componentCount : Nat)
    (v : List Int) (i : Nat) (data : List Nat) :
    boolCoerceLoop initialArrayOffset stride componentCount v i 0 data = data := rfl

theorem boolCoerceLoop_succ (initialArrayOffset stride componentCount : Nat)
    (v : List Int) (i n : Nat) (data : List Nat) :
    boolCoerceLoop initialArrayOffset stride componentCount v i (n + 1) data =
      boolCoerceLoop initialArrayOffset stride componentCount v (i + 1) n
        (writeBytes data (i * stride + initialArrayOffset)
          (((v.drop (i * componentCount)).take componentCount).map
            (fun x => encodeGLint (if x = 0 then 0 else 1))).flatten) := by
  conv_lhs => unfold boolCoerceLoop

/-- Full behaviour of the boolean-coercion loop: with non-overlapping element
slots (`4 * componentCount ≤ stride`, or at most one element), each element's
slot receives the serialized component-wise zero test, the data length is
preserved, and bytes outside the written slots are unchanged.  The loop has
no bounds check, so the bounds hypothesis speaks about the backing list, not
the allocated size. -/
theorem boolCoerceLoop_spec (initialArrayOffset stride componentCount : Nat)
    (v : List Int) :
    ∀ (n i : Nat) (data : List Nat),
      (∀ m, m < n →
        (i + m) * stride + initialArrayOffset + 4 * componentCount ≤ data.length) →
      (i + n) * componentCount ≤ v.length →
      (4 * componentCount ≤ stride ∨ n ≤ 1) →
      (boolCoerceLoop initialArrayOffset stride componentCount v i n data).length
          = data.length ∧
      (∀ m, m < n →
        readBytes (boolCoerceLoop initialArrayOffset stride componentCount v i n data)
            ((i + m) * stride + initialArrayOffset) (4 * componentCount) =
          glintBytes (((v.drop ((i + m) * componentCount)).take componentCount).map
            (fun x => if x = 0 then (0 : Int) else 1))) ∧
      (∀ j, (∀ m, m < n → j < (i + m) * stride + initialArrayOffset ∨
          (i + m) * stride + initialArrayOffset + 4 * componentCount ≤ j) →
        (boolCoerceLoop initialArrayOffset stride componentCount v i n data)[j]?
          = data[j]?) := by
  intro n
  induction n with
  | zero =>
    intro i data hbound hv hs
    exact ⟨rfl, fun m hm => absurd hm (by omega), fun j _ => rfl⟩
  | succ n ih =>
    intro i data hbound hv hs
    have h0 : i * stride + initialArrayOffset + 4 * componentCount ≤ data.length := by
      have h00 := hbound 0 (by omega)
      simpa using h00
    have hexp : (i + (n + 1)) * componentCount
        = i * componentCount + n * componentCount + componentCount := by ring
    have hv0 : i * componentCount + componentCount ≤ v.length := by
      rw [hexp] at hv
      omega
    have hslice : ((v.drop (i * componentCount)).take componentCount).length
        = componentCount := by
      rw [List.length_take, List.length_drop]
      omega
    have hcoerced :
        ((((v.drop (i * componentCount)).take componentCount).map
          (fun x => encodeGLint (if x = 0 then 0 else 1))).flatten).length
          = 4 * componentCount := by
      rw [coerced_eq_glintBytes, length_glintBytes, List.length_map, hslice]
    have hlen1 : (writeBytes data (i * stride + initialArrayOffset)
        (((v.drop (i * componentCount)).take componentCount).map
          (fun x => encodeGLint (if x = 0 then 0 else 1))).flatten).length
        = data.length := length_writeBytes _ _ _
    have hs1 : 4 * componentCount ≤ stride ∨ n ≤ 1 := by
      rcases hs with h | h
      · exact Or.inl h
      · exact Or.inr (by omega)
    have hbound1 : ∀ m, m < n →
        (i + 1 + m) * stride + initialArrayOffset + 4 * componentCount ≤
          (writeBytes data (i * stride + initialArrayOffset)
            (((v.drop (i * componentCount)).take componentCount).map
              (fun x => encodeGLint (if x = 0 then 0 else 1))).flatten).length := by
      intro m hm
      rw [hlen1]
      have h1 := hbound (m + 1) (by omega)
      have he : i + (m + 1) = i + 1 + m := by omega
      rw [he] at h1
      exact h1
    have hv1 : (i + 1 + n) * componentCount ≤ v.length := by
      have he : i + 1 + n = i + (n + 1) := by omega
      rw [he]
      exact hv
    obtain ⟨hlen, helem, huntouched⟩ := ih (i + 1) _ hbound1 hv1 hs1
    rw [boolCoerceLoop_succ]
    refine ⟨by rw [hlen, hlen1], ?_, ?_⟩
    · intro m hm
      cases m with
      | zero =>
        simp only [Nat.add_zero]
        have hdisj : ∀ m, m < n →
            (∀ j, i * stride + initialArrayOffset ≤ j →
              j < i * stride + initialArrayOffset + 4 * componentCount →
              j < (i + 1 + m) * stride + initialArrayOffset ∨
                (i + 1 + m) * stride + initialArrayOffset + 4 * componentCount ≤ j) := by
          intro m hm2 j hj1 hj2
          left
          have hstride : 4 * componentCount ≤ stride := by
            rcases hs with h | h
            · exact h
            · omega
          have hmul : (i + 1) * stride ≤ (i + 1 + m) * stride :=
            Nat.mul_le_mul_right _ (by omega)
          have hdist : (i + 1) * stride = i * stride + stride := by ring
          omega
        have hstep : readBytes
            (boolCoerceLoop initialArrayOffset stride componentCount v (i + 1) n
              (writeBytes data (i * stride + initialArrayOffset)
                (((v.drop (i * componentCount)).take componentCount).map
                  (fun x => encodeGLint (if x = 0 then 0 else 1))).flatten))
            (i * stride + initialArrayOffset) (4 * componentCount)
            = readBytes (writeBytes data (i * stride + initialArrayOffset)
                (((v.drop (i * componentCount)).take componentCount).map
                  (fun x => encodeGLint (if x = 0 then 0 else 1))).flatten)
              (i * stride + initialArrayOffset) (4 * componentCount) := by
          apply List.ext_getElem?
          intro k
          rw [getElem?_readBytes, getElem?_readBytes]
          by_cases hk : k < 4 * componentCount
          · rw [if_pos hk, if_pos hk]
            apply huntouched
            intro m hm2
            exact hdisj m hm2 _ (by omega) (by omega)
          · rw [if_neg hk, if_neg hk]
        rw [hstep]
        rw [readBytes_writeBytes_self _ _ _ _ (by rw [hcoerced]) (by omega)]
        rw [readBytes_zero_of_le _ _ (by rw [hcoerced])]
        exact coerced_eq_glintBytes _
      | succ m =>
        have h1 := helem m (by omega)
        have he : i + (m + 1) = i + 1 + m := by omega
        rw [he]
        exact h1
    · intro j hj
      have hj1 : ∀ m, m < n → j < (i + 1 + m) * stride + initialArrayOffset ∨
          (i + 1 + m) * stride + initialArrayOffset + 4 * componentCount ≤ j := by
        intro m hm
        have h1 := hj (m + 1) (by omega)
        have he : i + (m + 1) = i + 1 + m := by omega
        rw [he] at h1
        exact h1
      rw [huntouched j hj1]
      have h00 := hj 0 (by omega)
      simp only [Nat.add_zero] at h00
      rcases h00 with hlt | hge
      · exact getElem?_writeBytes_of_lt _ _ _ _ hlt
      · exact getElem?_writeBytes_of_ge _ _ _ _ (by rw [hcoerced]; omega)

/-- A fold whose action never asserts always succeeds. -/
theorem forStages_total (act : DefaultUniformBlock → Option (DefaultUniformBlock × Bool))
    (htot : ∀ b, act b ≠ none) (stages : List ShaderType) (st : ProgState) :
    ∃ st', forStages act stages st = some st' := by
  induction stages generalizing st with
  | nil => exact ⟨st, rfl⟩
  | cons stage rest ih =>
    cases hact : act (st.blocks stage) with
    | none => exact absurd hact (htot _)
    | some p =>
      obtain ⟨b, t⟩ := p
      rw [forStages_cons_some act stage rest st b t hact]
      exact ih _

/-! ## Claim C1 -/

/-- Outside the -1 sentinel both branches of the read primitive are a single
copy of `elementSize` bytes from `offset + arrayIndex * arrayStride`. -/
theorem ReadFromDefaultUniformBlock_eq (componentCount arrayIndex : Nat)
    (dst : List Nat) (layoutInfo : BlockMemberInfo) (uniformData : MemoryBuffer)
    (hoff : layoutInfo.offset ≠ -1) :
    ReadFromDefaultUniformBlock componentCount arrayIndex dst layoutInfo uniformData =
      some (writeBytes dst 0 (readBytes uniformData.data
        (layoutInfo.offset.toNat + arrayIndex * layoutInfo.arrayStride.toNat)
        (4 * componentCount))) := by
  unfold ReadFromDefaultUniformBlock
  rw [if_neg hoff]
  dsimp only
  split
  · rfl
  · rfl

/-- C1: on a linked program, for a uniform location of a supported
non-opaque type (any scalar/vector/matrix shape of a 4-byte component type,
`componentCount = u.type.count`), a valid in-bounds array index and a source
value `v`: writing one element at `(location, arrayIndex)` through the
type-matching `setUniformImpl` path and then reading back at `(location,
arrayIndex)` through `getUniformImpl` returns exactly the written element's
bytes. -/
theorem c1_write_read_roundtrip (st : ProgState) (location : Nat) (v : List Int)
    (dst : List Nat) (entry : GLType) (entryComp : CompType) (u : LinkedUniform)
    (locInfo : VariableLocation) (S : ShaderType) (layout : BlockMemberInfo)
    (o s : Nat) (st' : ProgState)
    (hloc : st.uniformLocations.getD location default = locInfo)
    (hu : st.uniforms.getD locInfo.index default = u)
    (hty : u.type = entry)
    (hsam : u.type.sampler = false)
    (himg : u.type.image = false)
    (hcomp : u.type.comp = entryComp)
    (hfirst : getFirstShaderTypeWhereActive u = some S)
    (hS : S ∈ st.linkedStages)
    (hnd : st.linkedStages.Nodup)
    (hlay : (st.blocks S).uniformLayout.getD location default = layout)
    (ho : layout.offset = (o : Int))
    (hso : layout.arrayStride = (s : Int))
    (hb : o + locInfo.arrayIndex * s + 4 * u.type.count ≤
      (st.blocks S).uniformData.size)
    (hwf : (st.blocks S).uniformData.size ≤ (st.blocks S).uniformData.data.length)
    (hv : u.type.count ≤ v.length)
    (hsu : setUniformImpl location 1 v entry st = some st') :
    getUniformImpl location dst entryComp st' =
      some (writeBytes dst 0 (readBytes (glintBytes v) 0 (4 * u.type.count))) := by
  have hoN : layout.offset.toNat = o := by rw [ho]; exact Int.toNat_natCast o
  have hsN : layout.arrayStride.toNat = s := by rw [hso]; exact Int.toNat_natCast s
  have hoffS : ¬(layout.offset = -1) := by rw [ho]; omega
  unfold setUniformImpl at hsu
  dsimp only at hsu
  rw [hloc, hu, if_neg (by rw [hsam]; exact Bool.false_ne_true), if_pos hty] at hsu
  obtain ⟨b2, touched, hact, hbS, hdS⟩ := forStages_mem _ _ S hnd hS _ _ hsu
  obtain ⟨hfields1, hfields2, _⟩ := forStages_fields _ _ _ _ hsu
  unfold setUniformMatchingAct at hact
  dsimp only at hact
  rw [hlay, if_neg hoffS] at hact
  rw [UpdateDefaultUniformBlock_one locInfo.arrayIndex u.type.count (glintBytes v)
    layout (st.blocks S).uniformData (by rw [hoN, hsN]; exact hb)] at hact
  rw [hoN, hsN] at hact
  dsimp only at hact
  rw [Option.some.injEq, Prod.mk.injEq] at hact
  obtain ⟨hb2, _⟩ := hact
  have hblocks : st'.blocks S = ⟨(st.blocks S).uniformLayout,
      ⟨writeBytes (st.blocks S).uniformData.data (o + locInfo.arrayIndex * s)
        (readBytes (glintBytes v) 0 (4 * u.type.count)),
       (st.blocks S).uniformData.size⟩⟩ := by
    rw [hbS, ← hb2]
  have hsrclen : (readBytes (glintBytes v) 0 (4 * u.type.count)).length
      = 4 * u.type.count := by
    rw [length_readBytes, length_glintBytes]
    omega
  have hbytes : readBytes (writeBytes (st.blocks S).uniformData.data
        (o + locInfo.arrayIndex * s) (readBytes (glintBytes v) 0 (4 * u.type.count)))
      (o + locInfo.arrayIndex * s) (4 * u.type.count)
      = readBytes (glintBytes v) 0 (4 * u.type.count) := by
    rw [readBytes_writeBytes_self _ _ _ _ (by rw [hsrclen]) (by omega)]
    exact readBytes_zero_of_le _ _ (by rw [hsrclen])
  unfold getUniformImpl
  dsimp only
  rw [hfields1, hfields2, hloc, hu]
  rw [if_neg (by simp [hsam, himg])]
  rw [hfirst]
  dsimp only
  rw [hblocks]
  dsimp only
  rw [hlay]
  rw [if_pos (Or.inl hcomp)]
  by_cases hmat : u.type.matrix = true
  · rw [if_pos hmat]
    unfold GetMatrixUniform
    dsimp only
    rw [hoN, hsN, hbytes]
  · rw [if_neg hmat]
    rw [ReadFromDefaultUniformBlock_eq _ _ _ _ _ hoffS]
    dsimp only
    rw [hoN, hsN, hbytes]

/-- Witness for C1: writing the int 2-vector `[5, -7]` and reading it back
returns exactly its bytes. -/
theorem c1_witness :
    ∃ st', setUniformImpl 0 1 [5, -7] ⟨CompType.tInt, 2, false, false, false⟩
        egStateIntVec = some st' ∧
      getUniformImpl 0 (List.replicate 8 0) CompType.tInt st' =
        some (writeBytes (List.replicate 8 0) 0
          (readBytes (glintBytes [5, -7]) 0 (4 * 2))) := by
  obtain ⟨st', hst'⟩ : ∃ st',
      setUniformImpl 0 1 [5, -7] ⟨CompType.tInt, 2, false, false, false⟩
        egStateIntVec = some st' := ⟨_, rfl⟩
  refine ⟨st', hst', ?_⟩
  exact c1_write_read_roundtrip egStateIntVec 0 [5, -7] (List.replicate 8 0)
    ⟨CompType.tInt, 2, false, false, false⟩ CompType.tInt
    ⟨⟨CompType.tInt, 2, false, false, false⟩, ['w'], false, true, false, 1,
      fun s => decide (s = ShaderType.Vertex)⟩
    ⟨0, 0, true, false⟩ ShaderType.Vertex ⟨0, 0, 0, false⟩ 0 0 st'
    rfl rfl rfl rfl rfl rfl (by decide) (by decide) (by decide) rfl rfl rfl
    (by decide) (by simp [egStateIntVec]) (by decide) hst'

/-! ## Claim C10 -/

/-- C10: the non-matrix single-element read primitive is independent of
whether `arrayStride` equals the tight element size: for every layout record
with `offset ≠ -1` and every `arrayIndex`, both branches of
`ReadFromDefaultUniformBlock` copy exactly `elementSize` bytes from buffer
position `offset + arrayIndex * arrayStride` into the destination, so the two
branches are extensionally equal, and the read never touches the destination
at or beyond `elementSize` bytes. -/
theorem c10_read_branch_equivalence (componentCount arrayIndex : Nat) (dst : List Nat)
    (layoutInfo : BlockMemberInfo) (uniformData : MemoryBuffer)
    (hoff : layoutInfo.offset ≠ -1) :
    readBlockContiguous componentCount arrayIndex dst layoutInfo uniformData =
      readBlockStrided componentCount arrayIndex dst layoutInfo uniformData ∧
    ReadFromDefaultUniformBlock componentCount arrayIndex dst layoutInfo uniformData =
      some (writeBytes dst 0 (readBytes uniformData.data
        (layoutInfo.offset.toNat + arrayIndex * layoutInfo.arrayStride.toNat)
        (4 * componentCount))) ∧
    (∀ out, ReadFromDefaultUniformBlock componentCount arrayIndex dst layoutInfo
        uniformData = some out →
      ∀ j, 4 * componentCount ≤ j → out[j]? = dst[j]?) := by
  have hread : ReadFromDefaultUniformBlock componentCount arrayIndex dst layoutInfo
      uniformData =
      some (writeBytes dst 0 (readBytes uniformData.data
        (layoutInfo.offset.toNat + arrayIndex * layoutInfo.arrayStride.toNat)
        (4 * componentCount))) := by
    unfold ReadFromDefaultUniformBlock
    rw [if_neg hoff]
    dsimp only
    split
    · rfl
    · rfl
  refine ⟨rfl, hread, ?_⟩
  intro out hout j hj
  rw [hread] at hout
  cases hout
  refine getElem?_writeBytes_of_ge _ _ _ _ ?_
  have hl := length_readBytes uniformData.data
    (layoutInfo.offset.toNat + arrayIndex * layoutInfo.arrayStride.toNat)
    (4 * componentCount)
  omega

/-- Witness for C10 at a concrete strided layout. -/
theorem c10_witness :
    ((⟨16, 32, 0, false⟩ : BlockMemberInfo).offset ≠ -1) ∧
    (readBlockContiguous 4 1 [7, 7, 7, 7] ⟨16, 32, 0, false⟩ ⟨List.replicate 64 3, 64⟩ =
      readBlockStrided 4 1 [7, 7, 7, 7] ⟨16, 32, 0, false⟩ ⟨List.replicate 64 3, 64⟩) := by
  have h := c10_read_branch_equivalence 4 1 [7, 7, 7, 7] ⟨16, 32, 0, false⟩
    ⟨List.replicate 64 3, 64⟩ (by decide)
  exact ⟨by decide, h.1⟩

/-! ## Claim C2 -/

/-- C2 counterexample: the claim says every accessor treats a LayoutRecord
with `offset = -1` as a no-op and "does not signal an error or assertion
failure", but the read primitive `ReadFromDefaultUniformBlock` begins with
`ASSERT(layoutInfo.offset != -1)`: on the sentinel it signals an assertion
failure (modelled as `none`) instead of no-op'ing. -/
theorem c2_counterexample_read_asserts_on_sentinel :
    ReadFromDefaultUniformBlock 4 0 [9, 9, 9, 9] ⟨-1, -1, -1, false⟩
      ⟨List.replicate 64 0, 64⟩ = none := by
  rfl

theorem setUniformMatchingAct_sentinel (location count arrayIndex componentCount : Nat)
    (vBytes : List Nat) (block : DefaultUniformBlock)
    (hoff : (block.uniformLayout.getD location default).offset = -1) :
    setUniformMatchingAct location count arrayIndex componentCount vBytes block =
      some (block, false) := by
  unfold setUniformMatchingAct
  dsimp only
  rw [if_pos hoff]

theorem setUniformBoolAct_sentinel (location count arrayIndex componentCount : Nat)
    (uniformType entryPointType : GLType) (v : List Int) (block : DefaultUniformBlock)
    (hoff : (block.uniformLayout.getD location default).offset = -1) :
    setUniformBoolAct location count arrayIndex componentCount uniformType
      entryPointType v block = some (block, false) := by
  unfold setUniformBoolAct
  dsimp only
  rw [if_pos hoff]

theorem setUniformMatrixAct_sentinel (cols rows location count arrayIndex
    arraySizeProduct : Nat) (transpose : Bool) (value : List Nat)
    (block : DefaultUniformBlock)
    (hoff : (block.uniformLayout.getD location default).offset = -1) :
    setUniformMatrixAct cols rows location count arrayIndex arraySizeProduct transpose
      value block = some (block, false) := by
  unfold setUniformMatrixAct
  dsimp only
  rw [if_pos hoff]

/-- A stage whose action returns its block unchanged and untouched keeps its
block and dirty bit across a successful fold. -/
theorem forStages_skip_stage (act : DefaultUniformBlock → Option (DefaultUniformBlock × Bool))
    (stages : List ShaderType) (S : ShaderType) (hnd : stages.Nodup) (hS : S ∈ stages)
    (st st' : ProgState) (hact : act (st.blocks S) = some (st.blocks S, false))
    (h : forStages act stages st = some st') :
    st'.blocks S = st.blocks S ∧ st'.dirty S = st.dirty S := by
  obtain ⟨block, touched, hact2, hb, hd⟩ := forStages_mem act stages S hnd hS st st' h
  rw [hact, Option.some.injEq, Prod.mk.injEq] at hact2
  obtain ⟨hb2, ht2⟩ := hact2
  constructor
  · rw [hb, ← hb2]
  · rw [hd, ← ht2, Bool.or_false]

/-- C2 (amended): the write accessors (`setUniformImpl`, both of its
branches, and `setUniformMatrixfv`) treat a stage whose LayoutRecord offset
is the -1 sentinel as a skip-that-stage no-op — that stage's buffer bytes and
dirty bit are untouched and no error is signalled for it; the read primitive
`ReadFromDefaultUniformBlock`, however, `ASSERT`s `offset != -1`, so reaching
it with the sentinel is an assertion failure, not a no-op. -/
theorem c2_sentinel_noop_for_writes_assert_for_read :
    (∀ (st : ProgState) (location count : Nat) (v : List Int) (entry : GLType)
        (S : ShaderType) (st' : ProgState),
      st.linkedStages.Nodup → S ∈ st.linkedStages →
      ((st.blocks S).uniformLayout.getD location default).offset = -1 →
      setUniformImpl location count v entry st = some st' →
      st'.blocks S = st.blocks S ∧ st'.dirty S = st.dirty S) ∧
    (∀ (st : ProgState) (cols rows location count : Nat) (transpose : Bool)
        (value : List Nat) (S : ShaderType) (st' : ProgState),
      st.linkedStages.Nodup → S ∈ st.linkedStages →
      ((st.blocks S).uniformLayout.getD location default).offset = -1 →
      setUniformMatrixfv cols rows location count transpose value st = some st' →
      st'.blocks S = st.blocks S ∧ st'.dirty S = st.dirty S) ∧
    (∀ (componentCount arrayIndex : Nat) (dst : List Nat)
        (layoutInfo : BlockMemberInfo) (uniformData : MemoryBuffer),
      layoutInfo.offset = -1 →
      ReadFromDefaultUniformBlock componentCount arrayIndex dst layoutInfo uniformData
        = none) := by
  refine ⟨?_, ?_, ?_⟩
  · intro st location count v entry S st' hnd hS hoff hsu
    unfold setUniformImpl at hsu
    dsimp only at hsu
    by_cases hsam :
        (st.uniforms.getD (st.uniformLocations.getD location default).index
          default).type.sampler = true
    · rw [if_pos hsam] at hsu
      cases hsu
    · rw [if_neg hsam] at hsu
      by_cases hty :
          (st.uniforms.getD (st.uniformLocations.getD location default).index
            default).type = entry
      · rw [if_pos hty] at hsu
        exact forStages_skip_stage _ _ S hnd hS st st'
          (setUniformMatchingAct_sentinel _ _ _ _ _ _ hoff) hsu
      · rw [if_neg hty] at hsu
        exact forStages_skip_stage _ _ S hnd hS st st'
          (setUniformBoolAct_sentinel _ _ _ _ _ _ _ _ hoff) hsu
  · intro st cols rows location count transpose value S st' hnd hS hoff hsu
    unfold setUniformMatrixfv at hsu
    dsimp only at hsu
    exact forStages_skip_stage _ _ S hnd hS st st'
      (setUniformMatrixAct_sentinel _ _ _ _ _ _ _ _ _ hoff) hsu
  · intro componentCount arrayIndex dst layoutInfo uniformData hoff
    unfold ReadFromDefaultUniformBlock
    rw [if_pos hoff]

/-- Witness for C2: on a concrete one-stage program whose location has the -1
sentinel, the write leaves the stage's block and dirty bit unchanged, and the
concrete read primitive asserts. -/
theorem c2_witness :
    (∃ st', setUniformImpl 0 1 [5] floatScalar egStateSentinel = some st' ∧
      st'.blocks ShaderType.Vertex = egStateSentinel.blocks ShaderType.Vertex ∧
      st'.dirty ShaderType.Vertex = egStateSentinel.dirty ShaderType.Vertex) ∧
    ReadFromDefaultUniformBlock 1 0 [9, 9, 9, 9] ⟨-1, -1, -1, false⟩ ⟨[3, 3, 3, 3], 4⟩
      = none := by
  constructor
  · obtain ⟨st', hst'⟩ : ∃ st',
        setUniformImpl 0 1 [5] floatScalar egStateSentinel = some st' := ⟨_, rfl⟩
    obtain ⟨hb, hd⟩ := c2_sentinel_noop_for_writes_assert_for_read.1 egStateSentinel
      0 1 [5] floatScalar ShaderType.Vertex st' (by decide) (by decide) (by decide) hst'
    exact ⟨st', hst', hb, hd⟩
  · exact c2_sentinel_noop_for_writes_assert_for_read.2.2 1 0 [9, 9, 9, 9]
      ⟨-1, -1, -1, false⟩ ⟨[3, 3, 3, 3], 4⟩ rfl

/-! ## Claim C7 -/

theorem lookupStages_spec (layoutMap : ShaderType → List (List Char × BlockMemberInfo))
    (name : List Char) :
    ∀ (stages : List ShaderType) (acc : ShaderType → BlockMemberInfo) (found : Bool),
      stages.Nodup →
      ((lookupStages layoutMap name stages acc found).2 =
        (found || stages.any (fun S => (List.lookup name (layoutMap S)).isSome))) ∧
      (∀ S, S ∈ stages →
        (lookupStages layoutMap name stages acc found).1 S =
          match List.lookup name (layoutMap S) with
          | some info => info
          | none => acc S) ∧
      (∀ S, S ∉ stages → (lookupStages layoutMap name stages acc found).1 S = acc S) := by
  intro stages
  induction stages with
  | nil =>
    intro acc found _
    exact ⟨by simp [lookupStages], fun S hS => absurd hS (by simp),
      fun S _ => rfl⟩
  | cons stage rest ih =>
    intro acc found hnd
    have hstage_rest : stage ∉ rest := (List.nodup_cons.mp hnd).1
    have hnd' : rest.Nodup := (List.nodup_cons.mp hnd).2
    cases hlk : List.lookup name (layoutMap stage) with
    | some info =>
      have hred : lookupStages layoutMap name (stage :: rest) acc found =
          lookupStages layoutMap name rest (Function.update acc stage info) true := by
        conv_lhs => unfold lookupStages
        rw [hlk]
      obtain ⟨hf, hmem, hout⟩ := ih (Function.update acc stage info) true hnd'
      refine ⟨?_, ?_, ?_⟩
      · rw [hred, hf]
        simp [hlk]
      · intro S hS
        rcases List.mem_cons.mp hS with he | hm
        · subst he
          rw [hred, hout S hstage_rest, Function.update_same, hlk]
        · have hne : S ≠ stage := fun he => hstage_rest (he ▸ hm)
          rw [hred, hmem S hm]
          cases List.lookup name (layoutMap S) with
          | some i2 => rfl
          | none => exact Function.update_noteq hne _ _
      · intro S hS
        have hne : S ≠ stage := fun he => hS (he ▸ List.mem_cons_self stage rest)
        have hSr : S ∉ rest := fun hm => hS (List.mem_cons_of_mem _ hm)
        rw [hred, hout S hSr]
        exact Function.update_noteq hne _ _
    | none =>
      have hred : lookupStages layoutMap name (stage :: rest) acc found =
          lookupStages layoutMap name rest acc found := by
        conv_lhs => unfold lookupStages
        rw [hlk]
      obtain ⟨hf, hmem, hout⟩ := ih acc found hnd'
      refine ⟨?_, ?_, ?_⟩
      · rw [hred, hf]
        simp [hlk]
      · intro S hS
        rcases List.mem_cons.mp hS with he | hm
        · subst he
          rw [hred, hout S hstage_rest, hlk]
        · rw [hred, hmem S hm]
      · intro S hS
        have hSr : S ∉ rest := fun hm => hS (List.mem_cons_of_mem _ hm)
        rw [hred, hout S hSr]

/-- C7: during per-location layout resolution an array variable is looked up
under its base name with the trailing bracketed suffix stripped, and for a
used, non-ignored location whose uniform is in the default block and neither
sampler, image nor fragment-inout, failure of that lookup in every linked
stage is a fatal assertion (`none`) — never a silently produced all-(-1)
record; when the lookup hits in some stage, the location's table holds, for
each linked stage, exactly that stage's looked-up record (hit stages) or the
default all-(-1) record (miss stages). -/
theorem c7_resolver_strips_and_asserts
    (layoutMap : ShaderType → List (List Char × BlockMemberInfo))
    (uniforms : List LinkedUniform) (linkedStages : List ShaderType)
    (location : VariableLocation) (u : LinkedUniform)
    (hnd : linkedStages.Nodup)
    (hu : uniforms.getD location.index default = u)
    (hused : location.used = true) (hign : location.ignored = false)
    (hdb : u.inDefaultBlock = true) (hsam : u.type.sampler = false)
    (himg : u.type.image = false) (hfio : u.isFragmentInOut = false)
    (harr : u.isArray = true)
    (hshrink : (stripLastArrayIndex u.name).length ≠ u.name.length) :
    ((∀ S, S ∈ linkedStages →
        List.lookup (stripLastArrayIndex u.name) (layoutMap S) = none) →
      resolveLocation layoutMap uniforms linkedStages location = none) ∧
    (∀ f, resolveLocation layoutMap uniforms linkedStages location = some f →
      ∀ S, S ∈ linkedStages →
        f S = match List.lookup (stripLastArrayIndex u.name) (layoutMap S) with
          | some info => info
          | none => default) ∧
    ((∃ S, S ∈ linkedStages ∧
        (List.lookup (stripLastArrayIndex u.name) (layoutMap S)).isSome = true) →
      ∃ f, resolveLocation layoutMap uniforms linkedStages location = some f) := by
  have hnav : resolveLocation layoutMap uniforms linkedStages location =
      (match lookupStages layoutMap (stripLastArrayIndex u.name) linkedStages
          (fun _ => default) false with
        | (layoutInfo, true) => some layoutInfo
        | (_, false) => none) := by
    unfold resolveLocation
    rw [if_pos (by rw [hused, hign]; exact ⟨rfl, by simp⟩)]
    dsimp only
    rw [hu]
    rw [if_pos (by rw [hdb, hsam, himg, hfio]; exact ⟨rfl, by simp, by simp, by simp⟩)]
    rw [if_pos harr]
    rw [if_neg (by rw [harr]; intro hc; exact hshrink hc.2)]
  obtain ⟨hf, hmem, _⟩ := lookupStages_spec layoutMap (stripLastArrayIndex u.name)
    linkedStages (fun _ => default) false hnd
  refine ⟨?_, ?_, ?_⟩
  · intro hnone
    rw [hnav]
    have hany : linkedStages.any
        (fun S => (List.lookup (stripLastArrayIndex u.name) (layoutMap S)).isSome)
        = false := by
      rw [List.any_eq_false]
      intro S hS
      rw [hnone S hS]
      simp
    cases hlk : lookupStages layoutMap (stripLastArrayIndex u.name) linkedStages
        (fun _ => default) false with
    | mk f fd =>
      rw [hlk] at hf
      simp only [hany, Bool.or_false, Bool.false_or] at hf
      rw [hf]
  · intro f hres S hS
    rw [hnav] at hres
    cases hlk : lookupStages layoutMap (stripLastArrayIndex u.name) linkedStages
        (fun _ => default) false with
    | mk g fd =>
      rw [hlk] at hres hmem
      cases fd with
      | true =>
        simp only [Option.some.injEq] at hres
        subst hres
        exact hmem S hS
      | false => cases hres
  · intro hex
    rw [hnav]
    obtain ⟨S, hS, hsome⟩ := hex
    cases hlk : lookupStages layoutMap (stripLastArrayIndex u.name) linkedStages
        (fun _ => default) false with
    | mk g fd =>
      rw [hlk] at hf
      have hany : linkedStages.any
          (fun S => (List.lookup (stripLastArrayIndex u.name) (layoutMap S)).isSome)
          = true := List.any_eq_true.mpr ⟨S, hS, hsome⟩
      rw [hany, Bool.false_or] at hf
      dsimp only at hf
      subst hf
      exact ⟨g, rfl⟩

/-- Witness for C7 on a concrete one-stage layout map holding the stripped
base name. -/
theorem c7_witness :
    (resolveLocation
        (fun _ => [(['a'], (⟨0, 16, 0, false⟩ : BlockMemberInfo))])
        [⟨floatScalar, ['a', '[', '0', ']'], true, true, false, 2,
          fun s => decide (s = ShaderType.Vertex)⟩]
        [ShaderType.Vertex] ⟨0, 0, true, false⟩).map (fun f => f ShaderType.Vertex)
      = some ⟨0, 16, 0, false⟩ := by
  obtain ⟨f, hf⟩ : ∃ f, resolveLocation
      (fun _ => [(['a'], (⟨0, 16, 0, false⟩ : BlockMemberInfo))])
      [⟨floatScalar, ['a', '[', '0', ']'], true, true, false, 2,
        fun s => decide (s = ShaderType.Vertex)⟩]
      [ShaderType.Vertex] ⟨0, 0, true, false⟩ = some f := ⟨_, rfl⟩
  have h := (c7_resolver_strips_and_asserts
    (fun _ => [(['a'], (⟨0, 16, 0, false⟩ : BlockMemberInfo))])
    [⟨floatScalar, ['a', '[', '0', ']'], true, true, false, 2,
      fun s => decide (s = ShaderType.Vertex)⟩]
    [ShaderType.Vertex] ⟨0, 0, true, false⟩
    ⟨floatScalar, ['a', '[', '0', ']'], true, true, false, 2,
      fun s => decide (s = ShaderType.Vertex)⟩
    (by decide) rfl rfl rfl rfl rfl rfl rfl rfl (by decide)).2.1 f hf
    ShaderType.Vertex (by decide)
  rw [hf]
  show some (f ShaderType.Vertex) = some ⟨0, 16, 0, false⟩
  rw [h]
  rfl

/-! ## Claim C3 -/

/-- Element `i` of a contiguous chunk write can be read back at
`base + i * e`. -/
theorem readBytes_writeBytes_chunk (data v : List Nat) (base e count i : Nat)
    (hi : i < count) (hv : e * count ≤ v.length) (hd : base + e * count ≤ data.length) :
    readBytes (writeBytes data base (readBytes v 0 (e * count))) (base + i * e) e
      = readBytes v (i * e) e := by
  have hie : i * e + e ≤ count * e := by
    have h1 := Nat.mul_le_mul_right e (show i + 1 ≤ count by omega)
    rw [Nat.add_mul, Nat.one_mul] at h1
    exact h1
  have hec : e * count = count * e := Nat.mul_comm e count
  have hlen : (readBytes v 0 (e * count)).length = e * count := by
    rw [length_readBytes]
    omega
  apply List.ext_getElem?
  intro t
  rw [getElem?_readBytes, getElem?_readBytes]
  by_cases ht : t < e
  · rw [if_pos ht, if_pos ht]
    rw [getElem?_writeBytes_of_mem _ _ _ _ (by omega) (by omega) (by omega)]
    rw [getElem?_readBytes, if_pos (by omega)]
    congr 1
    omega
  · rw [if_neg ht, if_neg ht]

/-- C3: a type-matching write of `count` elements starting at `arrayIndex`
into a variable with arrayStride `s` and tight element size
`e = 4 * componentCount` places source element `i` exactly at buffer bytes
`[offset + (arrayIndex + i) * s, offset + (arrayIndex + i) * s + e)`, and
every padding byte between consecutive written elements (when `s > e`, the
bytes in `[offset + k * s + e, offset + (k + 1) * s)` for a written index
`k`) keeps its prior value — padding is neither zero-filled nor corrupted. -/
theorem c3_strided_write_placement_and_padding
    (count arrayIndex componentCount : Nat) (v : List Nat)
    (layoutInfo : BlockMemberInfo) (data : List Nat) (size : Nat) (o s e : Nat)
    (ho : layoutInfo.offset = (o : Int))
    (hs : layoutInfo.arrayStride = (s : Int))
    (he : e = 4 * componentCount)
    (hcount : 0 < count)
    (hse : e ≤ s ∨ (s = 0 ∧ count = 1))
    (hb : o + (arrayIndex + count - 1) * s + e ≤ size)
    (hwf : size ≤ data.length)
    (hv : e * count ≤ v.length) :
    ∃ data',
      UpdateDefaultUniformBlock count arrayIndex componentCount v layoutInfo
        ⟨data, size⟩ = (true, ⟨data', size⟩) ∧
      data'.length = data.length ∧
      (∀ i, i < count →
        readBytes data' (o + (arrayIndex + i) * s) e = readBytes v (i * e) e) ∧
      (∀ i, i < count → ∀ j, o + (arrayIndex + i) * s + e ≤ j →
        j < o + (arrayIndex + i + 1) * s → data'[j]? = data[j]?) := by
  have hoN : layoutInfo.offset.toNat = o := by rw [ho]; exact Int.toNat_natCast o
  have hsN : layoutInfo.arrayStride.toNat = s := by rw [hs]; exact Int.toNat_natCast s
  obtain ⟨k, rfl⟩ : ∃ k, count = k + 1 := ⟨count - 1, by omega⟩
  by_cases hc : layoutInfo.arrayStride = 0 ∨
      layoutInfo.arrayStride = ((4 * componentCount : Nat) : Int)
  · -- contiguous memcpy branch
    have hse2 : s = e ∨ (s = 0 ∧ k = 0) := by
      rcases hc with h0 | hee
      · rw [hs] at h0
        have hs0 : s = 0 := by exact_mod_cast h0
        rcases hse with hle | ⟨_, hc1⟩
        · left
          omega
        · right
          exact ⟨hs0, by omega⟩
      · left
        rw [hs, ← he] at hee
        exact_mod_cast hee
    rw [UpdateDefaultUniformBlock_eq_contig (k + 1) arrayIndex componentCount v
      layoutInfo ⟨data, size⟩ hc]
    dsimp only
    rw [hoN, hsN]
    rcases hse2 with hA | ⟨hs0, hk0⟩
    · -- s = e
      subst hA
      rw [← he]
      have hexp1 : (arrayIndex + (k + 1) - 1) * s = arrayIndex * s + k * s := by
        have h1 : arrayIndex + (k + 1) - 1 = arrayIndex + k := by omega
        rw [h1, Nat.add_mul]
      have hexp2 : s * (k + 1) = k * s + s := by ring
      rw [if_pos (by rw [hexp2]; rw [hexp1] at hb; exact (by omega))]
      refine ⟨_, rfl, length_writeBytes _ _ _, ?_, ?_⟩
      · intro i hi
        have hpos : o + (arrayIndex + i) * s = o + arrayIndex * s + i * s := by
          rw [Nat.add_mul]
          omega
        rw [hpos]
        exact readBytes_writeBytes_chunk data v (o + arrayIndex * s) s (k + 1) i hi
          hv (by rw [hexp2]; rw [hexp1] at hb; omega)
      · intro i hi j hj1 hj2
        have hexp3 : (arrayIndex + i + 1) * s = (arrayIndex + i) * s + s := by ring
        omega
    · -- s = 0, count = 1
      subst hs0
      subst hk0
      rw [← he]
      rw [if_pos (by omega)]
      refine ⟨_, rfl, length_writeBytes _ _ _, ?_, ?_⟩
      · intro i hi
        have hi0 : i = 0 := by omega
        subst hi0
        have e1 : o + arrayIndex * 0 = o := by omega
        have e2 : o + (arrayIndex + 0) * 0 = o := by omega
        have e3 : e * (0 + 1) = e := by ring
        have e4 : (0 : Nat) * e = 0 := by ring
        rw [e1, e2, e3, e4]
        have hlen : (readBytes v 0 e).length = e := by
          rw [length_readBytes]
          rw [e3] at hv
          omega
        rw [readBytes_writeBytes_self _ _ _ _ (by rw [hlen]) (by omega)]
        exact readBytes_zero_of_le _ _ (by rw [hlen])
      · intro i hi j hj1 hj2
        omega
  · -- strided per-element branch
    have hsny : ¬(s = 0) := by
      intro hs0
      exact hc (Or.inl (by rw [hs, hs0]; rfl))
    have hsee : e ≤ s := by
      rcases hse with h | ⟨h0, _⟩
      · exact h
      · exact absurd h0 hsny
    rw [UpdateDefaultUniformBlock_eq_strided (k + 1) arrayIndex componentCount v
      layoutInfo ⟨data, size⟩ hc]
    rw [hoN, hsN]
    have hmono : ∀ m, m < k + 1 → (arrayIndex + m) * s ≤ (arrayIndex + k) * s := by
      intro m hm
      exact Nat.mul_le_mul_right s (by omega)
    obtain ⟨data', hrun, hlen, helem, huntouched⟩ :=
      updateLoop_spec o s (4 * componentCount) v (by rw [← he]; exact hsee)
        (k + 1) arrayIndex 0 data size hwf
        (by
          intro m hm
          have h1 := hmono m hm
          have h2 : arrayIndex + (k + 1) - 1 = arrayIndex + k := by omega
          rw [h2] at hb
          rw [← he]
          omega)
        (by
          simp only [Nat.zero_add]
          rw [← he, Nat.mul_comm]
          exact hv)
    refine ⟨data', hrun, hlen, ?_, ?_⟩
    · intro i hi
      have h1 := helem i hi
      simp only [Nat.zero_add] at h1
      rw [he]
      exact h1
    · intro i hi j hj1 hj2
      apply huntouched
      intro m hm
      rw [he] at hj1
      by_cases hmi : m ≤ i
      · right
        have h1 : (arrayIndex + m) * s ≤ (arrayIndex + i) * s :=
          Nat.mul_le_mul_right s (by omega)
        omega
      · left
        have h1 : (arrayIndex + i + 1) * s ≤ (arrayIndex + m) * s :=
          Nat.mul_le_mul_right s (by omega)
        omega

/-- Witness for C3 at the spec's own example: 3 elements at arrayIndex 1,
arrayStride 32, tight element size 16. -/
theorem c3_witness :
    ∃ data',
      UpdateDefaultUniformBlock 3 1 4 (List.replicate 48 7) ⟨0, 32, 0, false⟩
        ⟨List.replicate 160 9, 160⟩ = (true, ⟨data', 160⟩) ∧
      data'.length = (List.replicate 160 9 : List Nat).length ∧
      (∀ i, i < 3 →
        readBytes data' (0 + (1 + i) * 32) 16 = readBytes (List.replicate 48 7) (i * 16) 16) ∧
      (∀ i, i < 3 → ∀ j, 0 + (1 + i) * 32 + 16 ≤ j →
        j < 0 + (1 + i + 1) * 32 → data'[j]? = (List.replicate 160 9 : List Nat)[j]?) :=
  c3_strided_write_placement_and_padding 3 1 4 (List.replicate 48 7) ⟨0, 32, 0, false⟩
    (List.replicate 160 9) 160 0 32 16 rfl rfl (by decide) (by decide)
    (Or.inl (by decide)) (by decide) (by simp) (by simp)

/-! ## Claim C5 -/

/-- C5 (amended): for type-matching writes through `UpdateDefaultUniformBlock`
an out-of-range count/arrayIndex combination is detected as a failed bounds
assertion — the contiguous branch checks the whole range up front, and the
strided branch checks each element before writing it — and in every case
(success or detected failure) no byte at or beyond the buffer's allocated
size is ever modified, and nothing is silently truncated (the boolean-
coercion write path, by contrast, performs no such check; see the
counterexample). -/
theorem c5_update_bounds_detection (count arrayIndex componentCount : Nat)
    (v : List Nat) (layoutInfo : BlockMemberInfo) (data : List Nat) (size : Nat) :
    ((UpdateDefaultUniformBlock count arrayIndex componentCount v layoutInfo
        ⟨data, size⟩).2.size = size) ∧
    (∀ j, size ≤ j →
      (UpdateDefaultUniformBlock count arrayIndex componentCount v layoutInfo
        ⟨data, size⟩).2.data[j]? = data[j]?) ∧
    ((layoutInfo.arrayStride = 0 ∨
        layoutInfo.arrayStride = ((4 * componentCount : Nat) : Int)) →
      ((UpdateDefaultUniformBlock count arrayIndex componentCount v layoutInfo
          ⟨data, size⟩).1 = true ↔
        layoutInfo.offset.toNat + arrayIndex * layoutInfo.arrayStride.toNat +
          4 * componentCount * count ≤ size)) ∧
    (¬(layoutInfo.arrayStride = 0 ∨
        layoutInfo.arrayStride = ((4 * componentCount : Nat) : Int)) →
      ((UpdateDefaultUniformBlock count arrayIndex componentCount v layoutInfo
          ⟨data, size⟩).1 = true ↔
        ∀ m, m < count → layoutInfo.offset.toNat + (arrayIndex + m) *
          layoutInfo.arrayStride.toNat + 4 * componentCount ≤ size)) := by
  by_cases hc : layoutInfo.arrayStride = 0 ∨
      layoutInfo.arrayStride = ((4 * componentCount : Nat) : Int)
  · rw [UpdateDefaultUniformBlock_eq_contig count arrayIndex componentCount v
      layoutInfo ⟨data, size⟩ hc]
    dsimp only
    by_cases hbnd : layoutInfo.offset.toNat +
        arrayIndex * layoutInfo.arrayStride.toNat + 4 * componentCount * count ≤ size
    · rw [if_pos hbnd]
      refine ⟨rfl, ?_, fun _ => by simpa using hbnd, fun hnc => absurd hc hnc⟩
      intro j hj
      refine getElem?_writeBytes_of_ge _ _ _ _ ?_
      have hl := length_readBytes v 0 (4 * componentCount * count)
      omega
    · rw [if_neg hbnd]
      refine ⟨rfl, fun j _ => rfl, ?_, fun hnc => absurd hc hnc⟩
      intro _
      constructor
      · intro hf
        simp at hf
      · intro hcontra
        exact absurd hcontra hbnd
  · rw [UpdateDefaultUniformBlock_eq_strided count arrayIndex componentCount v
      layoutInfo ⟨data, size⟩ hc]
    obtain ⟨hs, hd⟩ := updateLoop_oob layoutInfo.offset.toNat
      layoutInfo.arrayStride.toNat (4 * componentCount) v count arrayIndex 0 data size
    refine ⟨hs, hd, fun hcc => absurd hcc hc, ?_⟩
    intro _
    exact updateLoop_detect layoutInfo.offset.toNat layoutInfo.arrayStride.toNat
      (4 * componentCount) v count arrayIndex 0 data size

/-- C5 counterexample: the boolean-coercion write path has no bounds check.
Writing `count = 2` boolean scalars into a stage whose BlockStorage size is 4
succeeds silently and modifies bytes 4..7 — beyond the allocated size —
contradicting "any ... combination whose computed destination byte range
would extend past the stage's allocated BlockStorage size is detected as a
fatal bounds violation before any byte outside the buffer is written". -/
theorem c5_counterexample_bool_path_no_bounds_check :
    ∃ st', setUniformImpl 0 2 [1, 1] ⟨CompType.tInt, 1, false, false, false⟩
        egStateBoolOOB = some st' ∧
      (st'.blocks ShaderType.Vertex).uniformData.size = 4 ∧
      (st'.blocks ShaderType.Vertex).uniformData.data =
        [1, 0, 0, 0, 1, 0, 0, 0, 9, 9, 9, 9] := by
  refine ⟨_, rfl, ?_, ?_⟩ <;> decide

/-- Witness for C5 (amended): a concrete overflowing strided write (3
elements at arrayIndex 1, stride 32, element size 16, size 96 — the last
element would end at byte 112) is reported as a failed bounds check. -/
theorem c5_witness :
    (UpdateDefaultUniformBlock 3 1 4 (List.replicate 48 7) ⟨0, 32, 0, false⟩
      ⟨List.replicate 96 9, 96⟩).1 = false := by
  have h := (c5_update_bounds_detection 3 1 4 (List.replicate 48 7) ⟨0, 32, 0, false⟩
    (List.replicate 96 9) 96).2.2.2 (by decide)
  by_cases hres : (UpdateDefaultUniformBlock 3 1 4 (List.replicate 48 7)
      ⟨0, 32, 0, false⟩ ⟨List.replicate 96 9, 96⟩).1 = true
  · exact absurd (h.mp hres 2 (by decide)) (by decide)
  · simpa using hres

/-! ## Claim C4 -/

theorem slice_map_getD (v : List Int) (start cc c : Nat)
    (h : start + cc ≤ v.length) (hc : c < cc) :
    (((v.drop start).take cc).map (fun x => if x = 0 then (0 : Int) else 1)).getD c 0
      = if v.getD (start + c) 0 = 0 then (0 : Int) else 1 := by
  have hcv : start + c < v.length := by omega
  obtain ⟨x, hx⟩ : ∃ x, v[start + c]? = some x := ⟨v[start + c], List.getElem?_eq_getElem hcv⟩
  rw [List.getD_eq_getElem?_getD, List.getElem?_map, List.getElem?_take_of_lt hc,
    List.getElem?_drop, hx, List.getD_eq_getElem?_getD, hx]
  rfl

/-- C4: a write of an integer vector arriving at a location whose declared
type is the matching boolean vector is coerced deterministically, component
by component: a zero source component is stored as the `GL_FALSE = 0` sentinel
`GLint` and any nonzero component (negative included) as the `GL_TRUE = 1`
sentinel, written element-by-element respecting `arrayStride`. -/
theorem c4_bool_coercion (st : ProgState) (location count : Nat) (v : List Int)
    (entry : GLType) (u : LinkedUniform) (locInfo : VariableLocation)
    (S : ShaderType) (layout : BlockMemberInfo) (o s : Nat)
    (hloc : st.uniformLocations.getD location default = locInfo)
    (hu : st.uniforms.getD locInfo.index default = u)
    (hsam : u.type.sampler = false)
    (hbt : u.type = VariableBoolVectorType entry)
    (hne : u.type ≠ entry)
    (hnd : st.linkedStages.Nodup)
    (hS : S ∈ st.linkedStages)
    (hlay : (st.blocks S).uniformLayout.getD location default = layout)
    (ho : layout.offset = (o : Int))
    (hso : layout.arrayStride = (s : Int))
    (hbound : ∀ m, m < count → (locInfo.arrayIndex + m) * s + o + 4 * u.type.count ≤
      (st.blocks S).uniformData.data.length)
    (hv : count * u.type.count ≤ v.length)
    (hs4 : 4 * u.type.count ≤ s ∨ count ≤ 1) :
    ∃ st', setUniformImpl location count v entry st = some st' ∧
      st'.dirty S = true ∧
      ∀ i, i < count → ∀ c, c < u.type.count →
        readBytes (st'.blocks S).uniformData.data
            ((locInfo.arrayIndex + i) * s + o + 4 * c) 4 =
          encodeGLint (if v.getD (i * u.type.count + c) 0 = 0 then 0 else 1) := by
  have hoN : layout.offset.toNat = o := by rw [ho]; exact Int.toNat_natCast o
  have hsN : layout.arrayStride.toNat = s := by rw [hso]; exact Int.toNat_natCast s
  have hoffS : ¬(layout.offset = -1) := by rw [ho]; omega
  have htot : ∀ b, setUniformBoolAct location count locInfo.arrayIndex u.type.count
      u.type entry v b ≠ none := by
    intro b hcontra
    unfold setUniformBoolAct at hcontra
    dsimp only at hcontra
    by_cases hoffb : (b.uniformLayout.getD location default).offset = -1
    · rw [if_pos hoffb] at hcontra
      cases hcontra
    · rw [if_neg hoffb, if_pos hbt] at hcontra
      cases hcontra
  obtain ⟨st', hrun⟩ := forStages_total _ htot st.linkedStages st
  have hset : setUniformImpl location count v entry st = some st' := by
    unfold setUniformImpl
    dsimp only
    rw [hloc, hu, if_neg (by rw [hsam]; exact Bool.false_ne_true), if_neg hne]
    exact hrun
  obtain ⟨block, touched, hact, hbS, hdS⟩ := forStages_mem _ _ S hnd hS _ _ hrun
  unfold setUniformBoolAct at hact
  dsimp only at hact
  rw [hlay, if_neg hoffS, if_pos hbt, hoN, hsN] at hact
  rw [Option.some.injEq, Prod.mk.injEq] at hact
  obtain ⟨hb2, ht2⟩ := hact
  obtain ⟨hlen, helem, _⟩ := boolCoerceLoop_spec
    (locInfo.arrayIndex * s + o) s u.type.count v count 0
    (st.blocks S).uniformData.data
    (by
      intro m hm
      have hexp : (0 + m) * s + (locInfo.arrayIndex * s + o)
          = (locInfo.arrayIndex + m) * s + o := by ring
      rw [hexp]
      exact hbound m hm)
    (by simpa using hv)
    (by
      rcases hs4 with h | h
      · exact Or.inl h
      · exact Or.inr h)
  refine ⟨st', hset, ?_, ?_⟩
  · rw [hdS, ← ht2, Bool.or_true]
  · intro i hi c hc
    have hdata : (st'.blocks S).uniformData.data =
        boolCoerceLoop (locInfo.arrayIndex * s + o) s u.type.count v 0 count
          (st.blocks S).uniformData.data := by
      rw [hbS, ← hb2]
    rw [hdata]
    have h1 := helem i hi
    have hexp : (0 + i) * s + (locInfo.arrayIndex * s + o)
        = (locInfo.arrayIndex + i) * s + o := by ring
    rw [hexp] at h1
    have hslice_start : (0 + i) * u.type.count = i * u.type.count := by ring
    rw [hslice_start] at h1
    have hvi : i * u.type.count + u.type.count ≤ v.length := by
      have h2 := Nat.mul_le_mul_right u.type.count (show i + 1 ≤ count by omega)
      rw [Nat.add_mul, Nat.one_mul] at h2
      omega
    have hwlen : (((v.drop (i * u.type.count)).take u.type.count).map
        (fun x => if x = 0 then (0 : Int) else 1)).length = u.type.count := by
      rw [List.length_map, List.length_take, List.length_drop]
      omega
    rw [← readBytes_readBytes (boolCoerceLoop (locInfo.arrayIndex * s + o) s
      u.type.count v 0 count (st.blocks S).uniformData.data)
      ((locInfo.arrayIndex + i) * s + o) (4 * u.type.count) (4 * c) 4 (by omega)]
    rw [h1]
    rw [glintBytes_component _ c (by rw [hwlen]; exact hc)]
    rw [slice_map_getD v (i * u.type.count) u.type.count c hvi hc]

/-- Witness for C4: writing integer vector `[0, 5, -3, 0]` to the boolean
4-vector stores the sentinels `[GL_FALSE, GL_TRUE, GL_TRUE, GL_FALSE]`, and
reading the block back and testing each stored `GLint` against zero yields
`[false, true, true, false]`. -/
theorem c4_witness :
    (∃ st', setUniformImpl 0 1 [0, 5, -3, 0] ⟨CompType.tInt, 4, false, false, false⟩
        egStateBoolVec = some st' ∧
      st'.dirty ShaderType.Vertex = true ∧
      ∀ i, i < 1 → ∀ c, c < 4 →
        readBytes (st'.blocks ShaderType.Vertex).uniformData.data
            ((0 + i) * 0 + 0 + 4 * c) 4 =
          encodeGLint (if ([0, 5, -3, 0] : List Int).getD (i * 4 + c) 0 = 0
            then 0 else 1)) ∧
    ((setUniformImpl 0 1 [0, 5, -3, 0] ⟨CompType.tInt, 4, false, false, false⟩
        egStateBoolVec).bind
      (fun st' => getUniformImpl 0 (List.replicate 16 0) CompType.tInt st')).map
      (fun out => [decide (decodeGLuint (readBytes out 0 4) ≠ 0),
        decide (decodeGLuint (readBytes out 4 4) ≠ 0),
        decide (decodeGLuint (readBytes out 8 4) ≠ 0),
        decide (decodeGLuint (readBytes out 12 4) ≠ 0)]) =
      some [false, true, true, false] := by
  constructor
  · exact c4_bool_coercion egStateBoolVec 0 1 [0, 5, -3, 0]
      ⟨CompType.tInt, 4, false, false, false⟩
      ⟨⟨CompType.tBool, 4, false, false, false⟩, ['b'], false, true, false, 1,
        fun s => decide (s = ShaderType.Vertex)⟩
      ⟨0, 0, true, false⟩ ShaderType.Vertex ⟨0, 0, 0, false⟩ 0 0
      rfl rfl rfl rfl (by decide) (by decide) (by decide) rfl rfl rfl
      (by intro m hm; interval_cases m; simp [egStateBoolVec]) (by decide) (by decide)
  · decide

/-! ## Claim C9 -/

/-- A fold whose action skips sentinel blocks leaves a program whose every
linked stage carries the sentinel entirely unchanged (and succeeds). -/
theorem forStages_all_skip (act : DefaultUniformBlock → Option (DefaultUniformBlock × Bool))
    (location : Nat)
    (hskip : ∀ b : DefaultUniformBlock,
      (b.uniformLayout.getD location default).offset = -1 → act b = some (b, false)) :
    ∀ (stages : List ShaderType) (st : ProgState),
      (∀ S, S ∈ stages →
        ((st.blocks S).uniformLayout.getD location default).offset = -1) →
      ∃ st', forStages act stages st = some st' ∧
        (∀ S, st'.blocks S = st.blocks S) ∧ (∀ S, st'.dirty S = st.dirty S) := by
  intro stages
  induction stages with
  | nil =>
    intro st _
    exact ⟨st, rfl, fun _ => rfl, fun _ => rfl⟩
  | cons stage rest ih =>
    intro st hall
    have hact := hskip (st.blocks stage) (hall stage (List.mem_cons_self _ _))
    have hblocks1 : ∀ S, (stageStep st stage (st.blocks stage) false).blocks S
        = st.blocks S := by
      intro S
      by_cases hS : S = stage
      · subst hS
        simp [stageStep]
      · simp [stageStep, Function.update_noteq hS]
    obtain ⟨st', hrun, hb, hd⟩ := ih (stageStep st stage (st.blocks stage) false)
      (by intro S hS; rw [hblocks1 S]; exact hall S (List.mem_cons_of_mem _ hS))
    refine ⟨st', ?_, ?_, ?_⟩
    · rw [forStages_cons_some act stage rest st (st.blocks stage) false hact]
      exact hrun
    · intro S
      rw [hb S, hblocks1 S]
    · intro S
      rw [hd S]
      rfl

/-- A fold whose action skips sentinel blocks and asserts on every other
block fails as soon as some linked stage carries a non-sentinel record. -/
theorem forStages_hits_assert (act : DefaultUniformBlock → Option (DefaultUniformBlock × Bool))
    (location : Nat)
    (hskip : ∀ b : DefaultUniformBlock,
      (b.uniformLayout.getD location default).offset = -1 → act b = some (b, false))
    (hassert : ∀ b : DefaultUniformBlock,
      (b.uniformLayout.getD location default).offset ≠ -1 → act b = none) :
    ∀ (stages : List ShaderType) (st : ProgState),
      (∃ S, S ∈ stages ∧
        ((st.blocks S).uniformLayout.getD location default).offset ≠ -1) →
      forStages act stages st = none := by
  intro stages
  induction stages with
  | nil =>
    intro st hex
    obtain ⟨S, hS, _⟩ := hex
    cases hS
  | cons stage rest ih =>
    intro st hex
    by_cases h0 : ((st.blocks stage).uniformLayout.getD location default).offset = -1
    · have hact := hskip (st.blocks stage) h0
      rw [forStages_cons_some act stage rest st (st.blocks stage) false hact]
      obtain ⟨S, hS, hne⟩ := hex
      have hSr : S ∈ rest := by
        rcases List.mem_cons.mp hS with he | hm
        · subst he
          exact absurd h0 hne
        · exact hm
      apply ih
      refine ⟨S, hSr, ?_⟩
      by_cases hSe : S = stage
      · subst hSe
        simpa [stageStep] using hne
      · simpa [stageStep, Function.update_noteq hSe] using hne
    · rw [forStages_cons_none act stage rest st (hassert _ h0)]

/-- C9 (amended): writing a sampler-typed location through `setUniformImpl`
is an assertion failure, and reading a sampler- or image-typed location
through `getUniformImpl` is an assertion failure; but writing an image- (or
other opaque-) typed location is silently accepted as a no-op whenever every
linked stage's LayoutRecord carries the -1 sentinel (which is what the
resolver produces for opaque types) — only a stage with `offset ≠ -1`
triggers the coercion-branch type assertion.  The public caller
`setUniform1iv` filters samplers out with a silent early return before
reaching the engine. -/
theorem c9_opaque_access_behaviour :
    (∀ (st : ProgState) (location count : Nat) (v : List Int) (entry : GLType)
        (u : LinkedUniform),
      st.uniforms.getD (st.uniformLocations.getD location default).index default = u →
      u.type.sampler = true →
      setUniformImpl location count v entry st = none) ∧
    (∀ (st : ProgState) (location : Nat) (dst : List Nat) (entry : CompType)
        (u : LinkedUniform),
      st.uniforms.getD (st.uniformLocations.getD location default).index default = u →
      (u.type.sampler = true ∨ u.type.image = true) →
      getUniformImpl location dst entry st = none) ∧
    (∀ (st : ProgState) (location count : Nat) (v : List Int) (entry : GLType)
        (u : LinkedUniform),
      st.uniforms.getD (st.uniformLocations.getD location default).index default = u →
      u.type.sampler = false → u.type.image = true →
      u.type ≠ entry → u.type ≠ VariableBoolVectorType entry →
      (∀ S, S ∈ st.linkedStages →
        (((st.blocks S).uniformLayout.getD location default).offset = -1)) →
      ∃ st', setUniformImpl location count v entry st = some st' ∧
        (∀ S, st'.blocks S = st.blocks S) ∧ (∀ S, st'.dirty S = st.dirty S)) ∧
    (∀ (st : ProgState) (location count : Nat) (v : List Int) (entry : GLType)
        (u : LinkedUniform),
      st.uniforms.getD (st.uniformLocations.getD location default).index default = u →
      u.type.sampler = false →
      u.type ≠ entry → u.type ≠ VariableBoolVectorType entry →
      (∃ S, S ∈ st.linkedStages ∧
        ((st.blocks S).uniformLayout.getD location default).offset ≠ -1) →
      setUniformImpl location count v entry st = none) ∧
    (∀ (st : ProgState) (location count : Nat) (v : List Int) (u : LinkedUniform),
      st.uniforms.getD (st.uniformLocations.getD location default).index default = u →
      u.type.sampler = true →
      setUniform1iv location count v st = some st) := by
  have hboolskip : ∀ (location count arrayIndex componentCount : Nat)
      (ut et : GLType) (v : List Int) (b : DefaultUniformBlock),
      (b.uniformLayout.getD location default).offset = -1 →
      setUniformBoolAct location count arrayIndex componentCount ut et v b
        = some (b, false) := by
    intro location count arrayIndex componentCount ut et v b hoff
    exact setUniformBoolAct_sentinel _ _ _ _ _ _ _ _ hoff
  have hboolassert : ∀ (location count arrayIndex componentCount : Nat)
      (ut et : GLType) (v : List Int) (b : DefaultUniformBlock), ut ≠ VariableBoolVectorType et →
      (b.uniformLayout.getD location default).offset ≠ -1 →
      setUniformBoolAct location count arrayIndex componentCount ut et v b = none := by
    intro location count arrayIndex componentCount ut et v b hne hoff
    unfold setUniformBoolAct
    dsimp only
    rw [if_neg hoff, if_neg hne]
  refine ⟨?_, ?_, ?_, ?_, ?_⟩
  · intro st location count v entry u hu hsam
    unfold setUniformImpl
    dsimp only
    rw [hu, if_pos hsam]
  · intro st location dst entry u hu hor
    unfold getUniformImpl
    dsimp only
    rw [hu]
    rw [if_pos hor]
  · intro st location count v entry u hu hsam himg hne hnb hall
    unfold setUniformImpl
    dsimp only
    rw [hu, if_neg (by rw [hsam]; exact Bool.false_ne_true), if_neg hne]
    exact forStages_all_skip _ location
      (fun b hb => hboolskip location count _ _ _ _ v b hb) st.linkedStages st hall
  · intro st location count v entry u hu hsam hne hnb hex
    unfold setUniformImpl
    dsimp only
    rw [hu, if_neg (by rw [hsam]; exact Bool.false_ne_true), if_neg hne]
    exact forStages_hits_assert _ location
      (fun b hb => hboolskip location count _ _ _ _ v b hb)
      (fun b hb => hboolassert location count _ _ _ _ v b hnb hb)
      st.linkedStages st hex
  · intro st location count v u hu hsam
    unfold setUniform1iv
    dsimp only
    rw [hu, if_pos hsam]

/-- C9 counterexample: the claim says attempting to write an image-typed
location through the engine is "detected as an assertion-style failure, not a
silently accepted operation"; but `setUniformImpl` on a concrete image-typed
location (whose per-stage records are the resolver's all-(-1) sentinels)
silently succeeds as a no-op — no assertion fires. -/
theorem c9_counterexample_image_write_silently_accepted :
    ∃ st', setUniformImpl 0 1 [7] ⟨CompType.tInt, 1, false, false, false⟩ egStateImage
        = some st' ∧
      st'.blocks ShaderType.Vertex = egStateImage.blocks ShaderType.Vertex := by
  refine ⟨_, rfl, ?_⟩
  decide

/-- Witness for C9 (amended) at concrete inputs: the sampler write asserts,
the image read asserts, and the sampler filter in `setUniform1iv` silently
returns. -/
theorem c9_witness :
    setUniformImpl 0 1 [7] floatScalar
      ⟨[⟨0, 0, true, false⟩],
        [⟨⟨CompType.tInt, 1, false, true, false⟩, ['s'], false, false, false, 1,
          fun s => decide (s = ShaderType.Vertex)⟩],
        [ShaderType.Vertex], fun _ => egBlockSentinel, fun _ => false⟩ = none ∧
    getUniformImpl 0 [9, 9, 9, 9] CompType.tInt egStateImage = none ∧
    setUniform1iv 0 1 [7]
      ⟨[⟨0, 0, true, false⟩],
        [⟨⟨CompType.tInt, 1, false, true, false⟩, ['s'], false, false, false, 1,
          fun s => decide (s = ShaderType.Vertex)⟩],
        [ShaderType.Vertex], fun _ => egBlockSentinel, fun _ => false⟩ =
      some ⟨[⟨0, 0, true, false⟩],
        [⟨⟨CompType.tInt, 1, false, true, false⟩, ['s'], false, false, false, 1,
          fun s => decide (s = ShaderType.Vertex)⟩],
        [ShaderType.Vertex], fun _ => egBlockSentinel, fun _ => false⟩ := by
  refine ⟨?_, ?_, ?_⟩
  · exact c9_opaque_access_behaviour.1 _ 0 1 [7] floatScalar
      ⟨⟨CompType.tInt, 1, false, true, false⟩, ['s'], false, false, false, 1,
        fun s => decide (s = ShaderType.Vertex)⟩ rfl rfl
  · exact c9_opaque_access_behaviour.2.1 egStateImage 0 [9, 9, 9, 9] CompType.tInt
      ⟨imageType, ['i'], false, false, false, 1,
        fun s => decide (s = ShaderType.Vertex)⟩ rfl (Or.inr rfl)
  · exact c9_opaque_access_behaviour.2.2.2.2 _ 0 1 [7]
      ⟨⟨CompType.tInt, 1, false, true, false⟩, ['s'], false, false, false, 1,
        fun s => decide (s = ShaderType.Vertex)⟩ rfl rfl

/-! ## Claim C6 -/

theorem setUniformMatchingAct_touched_iff (location count arrayIndex componentCount : Nat)
    (vBytes : List Nat) (block b2 : DefaultUniformBlock) (t : Bool)
    (h : setUniformMatchingAct location count arrayIndex componentCount vBytes block
      = some (b2, t)) :
    (t = true ↔ (block.uniformLayout.getD location default).offset ≠ -1) := by
  unfold setUniformMatchingAct at h
  dsimp only at h
  by_cases hoff : (block.uniformLayout.getD location default).offset = -1
  · rw [if_pos hoff] at h
    rw [Option.some.injEq, Prod.mk.injEq] at h
    constructor
    · intro ht
      rw [← h.2] at ht
      cases ht
    · intro hne
      exact absurd hoff hne
  · rw [if_neg hoff] at h
    cases hup : UpdateDefaultUniformBlock count arrayIndex componentCount vBytes
        (block.uniformLayout.getD location default) block.uniformData with
    | mk ok buf =>
      rw [hup] at h
      cases ok with
      | true =>
        rw [Option.some.injEq, Prod.mk.injEq] at h
        exact ⟨fun _ => hoff, fun _ => h.2.symm⟩
      | false => cases h

theorem setUniformBoolAct_touched_iff (location count arrayIndex componentCount : Nat)
    (uniformType entryPointType : GLType) (v : List Int) (block b2 : DefaultUniformBlock)
    (t : Bool)
    (h : setUniformBoolAct location count arrayIndex componentCount uniformType
      entryPointType v block = some (b2, t)) :
    (t = true ↔ (block.uniformLayout.getD location default).offset ≠ -1) := by
  unfold setUniformBoolAct at h
  dsimp only at h
  by_cases hoff : (block.uniformLayout.getD location default).offset = -1
  · rw [if_pos hoff] at h
    rw [Option.some.injEq, Prod.mk.injEq] at h
    constructor
    · intro ht
      rw [← h.2] at ht
      cases ht
    · intro hne
      exact absurd hoff hne
  · rw [if_neg hoff] at h
    by_cases hty : uniformType = VariableBoolVectorType entryPointType
    · rw [if_pos hty] at h
      rw [Option.some.injEq, Prod.mk.injEq] at h
      exact ⟨fun _ => hoff, fun _ => h.2.symm⟩
    · rw [if_neg hty] at h
      cases h

theorem setUniformMatrixAct_touched_iff (cols rows location count arrayIndex
    arraySizeProduct : Nat) (transpose : Bool) (value : List Nat)
    (block b2 : DefaultUniformBlock) (t : Bool)
    (h : setUniformMatrixAct cols rows location count arrayIndex arraySizeProduct
      transpose value block = some (b2, t)) :
    (t = true ↔ (block.uniformLayout.getD location default).offset ≠ -1) := by
  unfold setUniformMatrixAct at h
  dsimp only at h
  by_cases hoff : (block.uniformLayout.getD location default).offset = -1
  · rw [if_pos hoff] at h
    rw [Option.some.injEq, Prod.mk.injEq] at h
    constructor
    · intro ht
      rw [← h.2] at ht
      cases ht
    · intro hne
      exact absurd hoff hne
  · rw [if_neg hoff] at h
    rw [Option.some.injEq, Prod.mk.injEq] at h
    exact ⟨fun _ => hoff, fun _ => h.2.symm⟩

/-- The dirty formula for a successful fold whose action touches exactly the
non-sentinel stages. -/
theorem forStages_dirty_formula (act : DefaultUniformBlock → Option (DefaultUniformBlock × Bool))
    (location : Nat)
    (hiff : ∀ block b2 t, act block = some (b2, t) →
      (t = true ↔ (block.uniformLayout.getD location default).offset ≠ -1))
    (st st' : ProgState) (hnd : st.linkedStages.Nodup)
    (h : forStages act st.linkedStages st = some st') :
    ∀ S, (st'.dirty S = true ↔ (st.dirty S = true ∨ (S ∈ st.linkedStages ∧
      ((st.blocks S).uniformLayout.getD location default).offset ≠ -1))) := by
  intro S
  by_cases hSm : S ∈ st.linkedStages
  · obtain ⟨b2, t, hact, _, hd⟩ := forStages_mem act st.linkedStages S hnd hSm st st' h
    have htiff := hiff (st.blocks S) b2 t hact
    rw [hd, Bool.or_eq_true]
    constructor
    · intro hor
      rcases hor with h1 | h1
      · exact Or.inl h1
      · exact Or.inr ⟨hSm, htiff.mp h1⟩
    · intro hor
      rcases hor with h1 | h1
      · exact Or.inl h1
      · exact Or.inr (htiff.mpr h1.2)
  · obtain ⟨_, hd⟩ := forStages_not_mem act st.linkedStages S hSm st st' h
    rw [hd]
    constructor
    · intro h1
      exact Or.inl h1
    · intro h1
      rcases h1 with h1 | h1
      · exact h1
      · exact absurd h1.1 hSm

/-- C6: after a successful write (`setUniformImpl`, either branch, or
`setUniformMatrixfv`), the dirty bit of stage `S` is set exactly when it was
already set or the write touched `S` (that is, `S` is linked and its
LayoutRecord offset is not the -1 sentinel); stages the write did not touch
keep their dirty bit unchanged, and the bit then stays set until the next
`clearDirty S`, which clears only `S`'s bit. -/
theorem c6_dirty_tracking :
    (∀ (st : ProgState) (location count : Nat) (v : List Int) (entry : GLType)
        (st' : ProgState),
      st.linkedStages.Nodup →
      setUniformImpl location count v entry st = some st' →
      ∀ S, (st'.dirty S = true ↔ (st.dirty S = true ∨ (S ∈ st.linkedStages ∧
        ((st.blocks S).uniformLayout.getD location default).offset ≠ -1)))) ∧
    (∀ (st : ProgState) (cols rows location count : Nat) (transpose : Bool)
        (value : List Nat) (st' : ProgState),
      st.linkedStages.Nodup →
      setUniformMatrixfv cols rows location count transpose value st = some st' →
      ∀ S, (st'.dirty S = true ↔ (st.dirty S = true ∨ (S ∈ st.linkedStages ∧
        ((st.blocks S).uniformLayout.getD location default).offset ≠ -1)))) ∧
    (∀ (st : ProgState) (S : ShaderType),
      (clearDirty S st).dirty S = false ∧
      ∀ R, R ≠ S → (clearDirty S st).dirty R = st.dirty R) := by
  refine ⟨?_, ?_, ?_⟩
  · intro st location count v entry st' hnd hsu
    unfold setUniformImpl at hsu
    dsimp only at hsu
    by_cases hsam :
        (st.uniforms.getD (st.uniformLocations.getD location default).index
          default).type.sampler = true
    · rw [if_pos hsam] at hsu
      cases hsu
    · rw [if_neg hsam] at hsu
      by_cases hty :
          (st.uniforms.getD (st.uniformLocations.getD location default).index
            default).type = entry
      · rw [if_pos hty] at hsu
        exact forStages_dirty_formula _ location
          (fun block b2 t hact =>
            setUniformMatchingAct_touched_iff _ _ _ _ _ _ _ _ hact)
          st st' hnd hsu
      · rw [if_neg hty] at hsu
        exact forStages_dirty_formula _ location
          (fun block b2 t hact => setUniformBoolAct_touched_iff _ _ _ _ _ _ _ _ _ _ hact)
          st st' hnd hsu
  · intro st cols rows location count transpose value st' hnd hsu
    unfold setUniformMatrixfv at hsu
    dsimp only at hsu
    exact forStages_dirty_formula _ location
      (fun block b2 t hact =>
        setUniformMatrixAct_touched_iff _ _ _ _ _ _ _ _ _ _ _ hact)
      st st' hnd hsu
  · intro st S
    constructor
    · simp [clearDirty]
    · intro R hR
      simp [clearDirty, Function.update_noteq hR]

/-- Witness for C6: a concrete matching-type write marks the vertex stage
dirty, leaves the untouched (sentinel) fragment stage clean, and `clearDirty`
then clears the vertex bit. -/
theorem c6_witness :
    ∃ st', setUniformImpl 0 1 [7] floatScalar egStateTwoStages = some st' ∧
      st'.dirty ShaderType.Vertex = true ∧
      st'.dirty ShaderType.Fragment = false ∧
      (clearDirty ShaderType.Vertex st').dirty ShaderType.Vertex = false := by
  obtain ⟨st', hst'⟩ : ∃ st',
      setUniformImpl 0 1 [7] floatScalar egStateTwoStages = some st' := ⟨_, rfl⟩
  have hiff := c6_dirty_tracking.1 egStateTwoStages 0 1 [7] floatScalar st'
    (by decide) hst'
  refine ⟨st', hst', ?_, ?_, ?_⟩
  · exact (hiff ShaderType.Vertex).mpr (Or.inr ⟨by decide, by decide⟩)
  · by_cases hb : st'.dirty ShaderType.Fragment = true
    · rcases (hiff ShaderType.Fragment).mp hb with h1 | h1
      · exact absurd h1 (by decide)
      · exact absurd h1.2 (by decide)
    · simpa using hb
  · exact (c6_dirty_tracking.2.2 st' ShaderType.Vertex).1

/-! ## Claim C8 -/

/-- C8: the layout encoder applied to an empty list of uniform variables, or
to a list whose members are all opaque-typed, returns `totalSize = 0` and an
empty name-to-LayoutRecord mapping — a legal result, not an error — and an
opaque-typed member never advances the layout cursor. -/
theorem c8_encoder_empty_and_opaque_skip (uniforms : List ShaderVariable)
    (hop : ∀ v ∈ uniforms, v.isOpaque = true) :
    InitDefaultUniformBlock [] = ([], 0) ∧
    InitDefaultUniformBlock uniforms = ([], 0) ∧
    (∀ (v : ShaderVariable) (rest : List ShaderVariable) (cursor : Nat),
      v.isOpaque = true → encodeVars (v :: rest) cursor = encodeVars rest cursor) := by
  have hskip : ∀ (v : ShaderVariable) (rest : List ShaderVariable) (cursor : Nat),
      v.isOpaque = true → encodeVars (v :: rest) cursor = encodeVars rest cursor := by
    intro v rest cursor hv
    conv_lhs => unfold encodeVars
    rw [if_pos hv]
  have hall : ∀ (l : List ShaderVariable), (∀ v ∈ l, v.isOpaque = true) →
      ∀ cursor, encodeVars l cursor = ([], cursor) := by
    intro l
    induction l with
    | nil => intro _ cursor; rfl
    | cons v rest ih =>
      intro h cursor
      rw [hskip v rest cursor (h v (List.mem_cons_self _ _))]
      exact ih (fun w hw => h w (List.mem_cons_of_mem _ hw)) cursor
  refine ⟨rfl, ?_, hskip⟩
  cases uniforms with
  | nil => rfl
  | cons v rest =>
    unfold InitDefaultUniformBlock
    rw [if_neg (by simp)]
    rw [hall (v :: rest) hop 0]
    rfl

/-- Witness for C8 at a concrete all-opaque (sampler) variable list. -/
theorem c8_witness :
    InitDefaultUniformBlock
      [⟨['s'], 1, 0, false, 0, false, true⟩, ⟨['t'], 1, 0, false, 0, false, true⟩]
      = ([], 0) :=
  (c8_encoder_empty_and_opaque_skip
    [⟨['s'], 1, 0, false, 0, false, true⟩, ⟨['t'], 1, 0, false, 0, false, true⟩]
    (by decide)).2.1

end ProgramVk
